import Mathlib

/-!
# Verification of the Esprit LLM dispatch layer

Shallow embedding, in Lean 4, of the parts of the Esprit repository that the
frozen claims are about:

* `esprit/llm/pricing.py` — tiered per-token pricing and model resolution;
* `esprit/providers/account_pool.py` — multi-account pool with rate-limit
  aware rotation and escalating cooldowns;
* `esprit/llm/llm.py` — the streaming loop of `LLM._stream`, and the
  429-rotation step `LLM._try_rotate_on_rate_limit` inside `LLM.generate`;
* `esprit/gui/tracer_bridge.py` — the delta detector of the telemetry fan-out.

Python floats are modelled as rationals (`ℚ`), Python ints as `Int`/`Nat`,
Python dicts as association lists in insertion order, and Python strings as
`String` (or `List Char` for the streaming content, where prefix reasoning
lives).  Fallible lookups return `Option`.
-/

namespace Esprit

/-! ## Pricing (`esprit/llm/pricing.py`) -/

/-- Tiered pricing threshold (`_TIERED_THRESHOLD = 200_000`). -/
def TIERED_THRESHOLD : Int := 200000

/-- Per-token pricing for a single model (`ModelPricing.__init__`; missing
fields default to `0`, as the Python `or 0.0` / `or 0` does). -/
structure ModelPricing where
  input_cost : ℚ := 0
  output_cost : ℚ := 0
  cache_write_cost : ℚ := 0
  cache_read_cost : ℚ := 0
  input_cost_above : ℚ := 0
  output_cost_above : ℚ := 0
  cache_write_cost_above : ℚ := 0
  cache_read_cost_above : ℚ := 0
  max_input_tokens : Int := 0
deriving DecidableEq, Repr

/-- `_tiered_cost(tokens, base_rate, above_rate, threshold)` from
`pricing.py`: cost with optional tiered pricing above a token threshold. -/
def tiered_cost (tokens : Int) (base_rate above_rate : ℚ)
    (threshold : Int := TIERED_THRESHOLD) : ℚ :=
  if tokens ≤ 0 then 0
  else if threshold < tokens ∧ 0 < above_rate then
    (min tokens threshold : Int) * base_rate + ((tokens - threshold : Int) : ℚ) * above_rate
  else (tokens : ℚ) * base_rate

/-- `calculate_cost(pricing, input_tokens, output_tokens, cached_tokens)` from
`pricing.py`: cache-read tokens are subtracted from the input tokens before
the regular input rate applies. -/
def calculate_cost (pricing : ModelPricing)
    (input_tokens output_tokens : Int) (cached_tokens : Int := 0) : ℚ :=
  let regular_input := max 0 (input_tokens - cached_tokens)
  let input_cost := tiered_cost regular_input pricing.input_cost pricing.input_cost_above
  let output_cost := tiered_cost output_tokens pricing.output_cost pricing.output_cost_above
  let cache_read := tiered_cost cached_tokens pricing.cache_read_cost pricing.cache_read_cost_above
  input_cost + output_cost + cache_read

/-- The spec's reading of one tiered term ("the first `threshold` tokens use
the base rate and the remainder uses the 'above' rate (skip tiering if the
'above' rate is zero)").  Stated from the spec's words, to be compared with
`tiered_cost` taken from the source. -/
def spec_tiered_term (tokens : Int) (base_rate above_rate : ℚ) : ℚ :=
  if TIERED_THRESHOLD < tokens ∧ above_rate ≠ 0 then
    (TIERED_THRESHOLD : ℚ) * base_rate + ((tokens - TIERED_THRESHOLD : Int) : ℚ) * above_rate
  else (tokens : ℚ) * base_rate

/-- The spec's cache-math formula: `(input−cached)·in_rate + output·out_rate +
cached·cache_read_rate`, each term tiered per `spec_tiered_term`. -/
def spec_cache_math (pricing : ModelPricing)
    (input_tokens output_tokens cached_tokens : Int) : ℚ :=
  spec_tiered_term (input_tokens - cached_tokens) pricing.input_cost pricing.input_cost_above
    + spec_tiered_term output_tokens pricing.output_cost pricing.output_cost_above
    + spec_tiered_term cached_tokens pricing.cache_read_cost pricing.cache_read_cost_above

/-! ### Model-name resolution (`PricingDB._resolve_model`) -/

/-- `_PROVIDER_PREFIXES` from `pricing.py`. -/
def PROVIDER_PREFIXES : List String :=
  ["anthropic/", "openai/", "gemini/", "azure/", "claude-"]

/-- `_MODEL_ALIASES` from `pricing.py`. -/
def MODEL_ALIASES : List (String × String) :=
  [("claude-opus-4-6-thinking", "claude-opus-4-6"),
   ("claude-opus-4-5-thinking", "claude-opus-4-5"),
   ("claude-sonnet-4-5-thinking", "claude-sonnet-4-5"),
   ("gemini-2.5-flash-thinking", "gemini-2.5-flash"),
   ("gemini-2.5-flash-lite", "gemini-2.5-flash"),
   ("gemini-3-flash", "gemini-3-flash-preview"),
   ("gemini-3-pro-high", "gemini-3-pro-preview"),
   ("gemini-3-pro-low", "gemini-3-pro-preview"),
   ("gemini-3-pro-image", "gemini-3-pro-image-preview"),
   ("gpt-5.3-codex", "gpt-5"),
   ("gpt-5.2-codex", "gpt-5"),
   ("gpt-5.1-codex", "gpt-5"),
   ("gpt-5.1-codex-max", "gpt-5"),
   ("gpt-5.1-codex-mini", "gpt-5-mini"),
   ("gpt-5-codex", "gpt-5"),
   ("gpt-5-codex-mini", "gpt-5-mini")]

/-- The pricing table `PricingDB._data`, as an association list in dict
insertion order (keys unique). -/
def PricingData := List (String × ModelPricing)

/-- Everything after the first `'/'`, if any (`model.split("/", 1)[1]`). -/
def afterSlash : List Char → Option (List Char)
  | [] => none
  | c :: t => if c = '/' then some t else afterSlash t

/-- Python `model.split("/", 1)[-1] if "/" in model else model`: everything
after the first slash, or the whole string when there is none. -/
def bareName (model : String) : String :=
  match afterSlash model.data with
  | some t => String.mk t
  | none => model

/-- Python `str.lower()` (the model names involved are ASCII, where
`Char.toLower` agrees with Python). -/
def strLower (s : String) : String := String.mk (s.data.map Char.toLower)

/-- Python `str.startswith`. -/
def strStarts (s pre : String) : Bool := pre.data.isPrefixOf s.data

/-- Python `len(str)` (code points). -/
def strLen (s : String) : Nat := s.data.length

/-- Python `str[n:]`. -/
def strDrop (s : String) (n : Nat) : String := String.mk (s.data.drop n)

/-- First-match association-list lookup (Python dict `in` / `[]`). -/
def alookup {α : Type} (data : List (String × α)) (key : String) : Option α :=
  match data.find? (fun kv => kv.1 == key) with
  | some kv => some kv.2
  | none => none

/-- Does `rest` begin on a name boundary (empty, or dash/dot/colon/digit)?
Mirrors `if not rest or rest[0] in ("-", ".", ":") or rest[0].isdigit()`. -/
def boundaryOk (rest : String) : Bool :=
  match rest.data with
  | [] => true
  | c :: _ => c == '-' || c == '.' || c == ':' || c.isDigit

/-- One step of the fuzzy longest-match fold of `_resolve_model` (the loop
over `self._data.items()` tracking `best`/`best_len`). -/
def fuzzyStep (bare_lower : String) (acc : Option ModelPricing × Nat)
    (kv : String × ModelPricing) : Option ModelPricing × Nat :=
  let key_bare := if (afterSlash kv.1.data).isSome then strLower (bareName kv.1)
                  else strLower kv.1
  if strStarts bare_lower key_bare ∧ strLen key_bare > acc.2 then
    if boundaryOk (strDrop bare_lower (strLen key_bare)) then (some kv.2, strLen key_bare)
    else acc
  else if strStarts key_bare bare_lower ∧ strLen bare_lower > acc.2 then
    if boundaryOk (strDrop key_bare (strLen bare_lower)) then (some kv.2, strLen bare_lower)
    else acc
  else acc

/-- The fuzzy longest-prefix pass of `_resolve_model`. -/
def fuzzyMatch (data : PricingData) (bare : String) : Option ModelPricing :=
  (data.foldl (fuzzyStep (strLower bare)) (none, 0)).1

/-- `PricingDB._resolve_model(model, _seen)`, with explicit fuel standing for
the alias-recursion depth (the `_seen` cycle guard bounds it by the number of
aliases, so the initial fuel `MODEL_ALIASES.length + 1` is never exhausted). -/
def resolveModelAux (data : PricingData) :
    Nat → String → List String → Option ModelPricing
  | 0, _, _ => none
  | fuel + 1, model, seen =>
    let bare := bareName model
    match alookup data model with
    | some p => some p
    | none =>
    match alookup data bare with
    | some p => some p
    | none =>
    match (PROVIDER_PREFIXES.filterMap (fun pre => alookup data (pre ++ bare))).head? with
    | some p => some p
    | none =>
    match alookup MODEL_ALIASES bare with
    | some al =>
      if al ∈ seen then fuzzyMatch data bare
      else resolveModelAux data fuel al (al :: seen)
    | none => fuzzyMatch data bare

/-- `PricingDB._resolve_model(model)` at the public entry point. -/
def resolve_model (data : PricingData) (model : String) : Option ModelPricing :=
  resolveModelAux data (MODEL_ALIASES.length + 1) model []

/-- `PricingDB.get_cost(model, input, output, cached)`: `0.0` when the model
does not resolve. -/
def get_cost (data : PricingData) (model : String)
    (input_tokens output_tokens : Int) (cached_tokens : Int := 0) : ℚ :=
  match resolve_model data model with
  | none => 0
  | some pricing => calculate_cost pricing input_tokens output_tokens cached_tokens

/-- `PricingDB.get_context_limit(model)`: `max_input_tokens` when positive,
else the `128_000` default. -/
def get_context_limit (data : PricingData) (model : String) : Int :=
  match resolve_model data model with
  | some pricing => if 0 < pricing.max_input_tokens then pricing.max_input_tokens else 128000
  | none => 128000

/-! ## Account pool (`esprit/providers/account_pool.py`)

All times are milliseconds (`Int`), as in the source.  The credentials
themselves play no role in any claim, so an `AccountEntry` keeps the fields
the pool logic reads and writes.  A single provider's pool is modelled (every
claimed operation touches exactly one provider's pool); the number of
`_save_accounts` calls an operation performs is returned as an explicit
`writes` count, so that "no disk write" is a provable statement. -/

/-- `BACKOFF_TIERS_S = [60, 300, 1800, 7200]`. -/
def BACKOFF_TIERS_S : List Int := [60, 300, 1800, 7200]

/-- `BACKOFF_RESET_S = 120`. -/
def BACKOFF_RESET_S : Int := 120

/-- `AccountEntry` (the fields the pool logic uses; `rate_limits` is the
`model → reset_at_ms` dict as an association list in insertion order). -/
structure AccountEntry where
  email : String
  enabled : Bool := true
  last_used : Option Int := none
  rate_limits : List (String × Int) := []
  cooling_until : Option Int := none
  consecutive_429s : Nat := 0
  last_429_at : Option Int := none
deriving DecidableEq, Repr

/-- One provider's pool: `{accounts, active_index, strategy}`. -/
structure Pool where
  accounts : List AccountEntry
  active_index : Nat := 0
  strategy : String := "sticky"
deriving DecidableEq, Repr

/-- Python truthiness of an optional integer (`None` and `0` are falsy). -/
def intTruthy : Option Int → Bool
  | none => false
  | some v => v != 0

/-- Python truthiness of an optional string (`None` and `""` are falsy). -/
def strTruthy : Option String → Bool
  | none => false
  | some s => s != ""

/-- Dict update `d[k] = v` on an association list: replace the value of the
first matching key, else append. -/
def dictSet (d : List (String × Int)) (k : String) (v : Int) : List (String × Int) :=
  match d with
  | [] => [(k, v)]
  | kv :: rest => if kv.1 == k then (k, v) :: rest else kv :: dictSet rest k v

/-- Update the first element satisfying `p` (the `for … break` pattern of
`mark_rate_limited` / `update_credentials`). -/
def updateFirst {α : Type} (p : α → Bool) (f : α → α) : List α → List α
  | [] => []
  | x :: xs => if p x then f x :: xs else x :: updateFirst p f xs

/-- `AccountPool._clear_expired_limits` on one account: drop rate-limit
entries whose reset time has passed, clear an expired (truthy) cooldown, and
reset `consecutive_429s` once the reset window has elapsed with no new 429. -/
def clearExpiredOne (now_ms : Int) (a : AccountEntry) : AccountEntry :=
  let rl := a.rate_limits.filter (fun kv => ¬ (kv.2 ≤ now_ms))
  let cooling :=
    match a.cooling_until with
    | some c => if c ≠ 0 ∧ c ≤ now_ms then none else some c
    | none => none
  let consec :=
    match a.last_429_at with
    | some t => if t ≠ 0 ∧ BACKOFF_RESET_S * 1000 < now_ms - t then 0 else a.consecutive_429s
    | none => a.consecutive_429s
  { a with rate_limits := rl, cooling_until := cooling, consecutive_429s := consec }

/-- `AccountPool._clear_expired_limits` over the loaded account list. -/
def clearExpired (accounts : List AccountEntry) (now_ms : Int) : List AccountEntry :=
  accounts.map (clearExpiredOne now_ms)

/-- `not a.cooling_until or a.cooling_until <= now_ms` (the availability
filter of `peek_best_account` / `get_best_account`). -/
def coolingOk (a : AccountEntry) (now_ms : Int) : Bool :=
  match a.cooling_until with
  | none => true
  | some c => c == 0 || c ≤ now_ms

/-- The enumerated availability list of `peek_best_account` /
`get_best_account`: enabled accounts not currently cooling, falling back to
all enabled accounts when that filter empties the list. -/
def availableOf (accounts : List AccountEntry) (now_ms : Int) : List (Nat × AccountEntry) :=
  let enumerated := accounts.enum
  let avail := enumerated.filter (fun ia => ia.2.enabled && coolingOk ia.2 now_ms)
  if avail.isEmpty then enumerated.filter (fun ia => ia.2.enabled) else avail

/-- The per-model rate-limit refinement: keep only accounts with no
(unexpired) rate-limit entry for `model`, unless that empties the list. -/
def filterByModel (available : List (Nat × AccountEntry)) (model : Option String) :
    List (Nat × AccountEntry) :=
  if strTruthy model then
    let m := model.getD ""
    let not_limited := available.filter (fun ia => (alookup ia.2.rate_limits m).isNone)
    if not_limited.isEmpty then available else not_limited
  else available

/-- `AccountPool.peek_best_account(provider, model)` — read-only selection.
The round-robin branch's stable sort by the key `(idx ≤ active_idx, idx)` is
rendered as the partition "indices above `active_idx` first, then the rest":
`available` is built by filtering an `enum`, so it is ascending in the index,
and a stable sort by that key is exactly this partition.
Returns `(chosen account, pool after the call, number of disk writes)`. -/
def peek_best_account (pool : Pool) (model : Option String) (now_ms : Int) :
    Option AccountEntry × Pool × Nat :=
  if pool.accounts.isEmpty then (none, pool, 0)
  else
    let accounts := clearExpired pool.accounts now_ms
    let strategy := pool.strategy
    let active_idx := pool.active_index
    let available := availableOf accounts now_ms
    if available.isEmpty then (none, pool, 0)
    else
      let available := filterByModel available model
      if strategy == "round-robin" then
        let sorted := available.filter (fun ia => ¬ (ia.1 ≤ active_idx))
          ++ available.filter (fun ia => ia.1 ≤ active_idx)
        ((sorted.head?).map (fun ia => ia.2), pool, 0)
      else
        match available.find? (fun ia => ia.1 == active_idx) with
        | some ia => (some ia.2, pool, 0)
        | none => ((available.head?).map (fun ia => ia.2), pool, 0)

/-- `AccountPool.get_best_account(provider, model)` — the same selection as
`peek_best_account` (the source duplicates the selection code), followed by
`chosen.last_used = now_ms`, `pool["active_index"] = chosen_idx` and one
`_save_accounts` (which persists the cleared account list). -/
def get_best_account (pool : Pool) (model : Option String) (now_ms : Int) :
    Option AccountEntry × Pool × Nat :=
  if pool.accounts.isEmpty then (none, pool, 0)
  else
    let accounts := clearExpired pool.accounts now_ms
    let strategy := pool.strategy
    let active_idx := pool.active_index
    let available := availableOf accounts now_ms
    if available.isEmpty then (none, pool, 0)
    else
      let available := filterByModel available model
      let chosen :=
        if strategy == "round-robin" then
          let sorted := available.filter (fun ia => ¬ (ia.1 ≤ active_idx))
            ++ available.filter (fun ia => ia.1 ≤ active_idx)
          sorted.head?
        else
          match available.find? (fun ia => ia.1 == active_idx) with
          | some ia => some ia
          | none => available.head?
      match chosen with
      | none => (none, pool, 0)
      | some ia =>
        let updated := { ia.2 with last_used := some now_ms }
        let accounts' := accounts.set ia.1 updated
        (some updated,
         { pool with accounts := accounts', active_index := ia.1 }, 1)

/-- Python `int(q)` on a rational: truncation toward zero. -/
def pyInt (q : ℚ) : Int := q.num.tdiv q.den

/-- The per-account body of `mark_rate_limited` (the `for acct … break`
branch): record the model's reset time, escalate `consecutive_429s` when the
previous 429 was within the reset window, stamp `last_429_at`, and set
`cooling_until` from the backoff tier. -/
def mark429 (now_ms : Int) (model : String) (reset_ms : Int) (a : AccountEntry) :
    AccountEntry :=
  let rl := dictSet a.rate_limits model (now_ms + reset_ms)
  let consec :=
    match a.last_429_at with
    | some t => if t ≠ 0 ∧ now_ms - t < BACKOFF_RESET_S * 1000 then a.consecutive_429s + 1 else 1
    | none => 1
  let tier := min (consec - 1) (BACKOFF_TIERS_S.length - 1)
  let cooldown := BACKOFF_TIERS_S.getD tier 0
  { a with rate_limits := rl, consecutive_429s := consec,
           last_429_at := some now_ms, cooling_until := some (now_ms + cooldown * 1000) }

/-- `AccountPool.mark_rate_limited(provider, email, model, reset_seconds)`:
update the first account with a matching email (if any) and save
unconditionally. -/
def mark_rate_limited (pool : Pool) (email model : String) (reset_seconds : ℚ)
    (now_ms : Int) : Pool × Nat :=
  let reset_ms := pyInt (reset_seconds * 1000)
  ({ pool with
      accounts := updateFirst (fun a => a.email == email) (mark429 now_ms model reset_ms)
        pool.accounts }, 1)

/-- The skip predicate of `rotate`'s loop: disabled, (truthy) cooling in the
future, or rate-limited for the given (truthy) model. -/
def rotateViable (a : AccountEntry) (model : Option String) (now_ms : Int) : Bool :=
  a.enabled
    && !(match a.cooling_until with | some c => c != 0 && now_ms < c | none => false)
    && !(if strTruthy model then (alookup a.rate_limits (model.getD "")).isSome else false)

/-- The offset scan of `rotate`: try `(current + offset) % len` for
`offset = 1, …, len − 1` and return the first viable index. -/
def rotateGo (accounts : List AccountEntry) (current : Nat) (model : Option String)
    (now_ms : Int) : List Nat → Option Nat
  | [] => none
  | offset :: rest =>
    let idx := (current + offset) % accounts.length
    match accounts[idx]? with
    | none => rotateGo accounts current model now_ms rest
    | some a =>
      if rotateViable a model now_ms then some idx
      else rotateGo accounts current model now_ms rest

/-- `AccountPool.rotate(provider, model)`: advance `active_index` to the next
viable account different from the current one; `nil` with at most one stored
account or when no other account is viable. -/
def rotate (pool : Pool) (model : Option String) (now_ms : Int) :
    Option AccountEntry × Pool × Nat :=
  if pool.accounts.length ≤ 1 then (none, pool, 0)
  else
    let current := pool.active_index
    let accounts := clearExpired pool.accounts now_ms
    match rotateGo accounts current model now_ms
        ((List.range (accounts.length - 1)).map (fun k => k + 1)) with
    | none => (none, pool, 0)
    | some idx =>
      match accounts[idx]? with
      | none => (none, pool, 0)
      | some a =>
        let updated := { a with last_used := some now_ms }
        let accounts' := accounts.set idx updated
        (some updated, { pool with accounts := accounts', active_index := idx }, 1)

/-! ## The streaming loop (`LLM._stream`, `esprit/llm/llm.py`)

Content strings are modelled as `List Char` so that the prefix relation of
the cumulative-stream claim is the library's `<+:`.  A chunk carries the
delta `_get_chunk_content` extracts (possibly empty) and whether it has a
truthy `usage` attribute. -/

/-- The literal closing marker the stream watches for. -/
def funClose : List Char := "</function>".data

/-- One streamed chunk, as `LLM._stream` consumes it. -/
structure StreamChunk where
  content : List Char
  hasUsage : Bool := false

/-- Index of the first occurrence of `pat` in `s` (Python `s.find(pat)` when
`pat` occurs; `none` otherwise, which is also Python's `pat in s` test). -/
def firstOcc (pat : List Char) : List Char → Option Nat
  | [] => if pat.isPrefixOf ([] : List Char) then some 0 else none
  | c :: t =>
    if pat.isPrefixOf (c :: t) then some 0
    else (firstOcc pat t).map (fun i => i + 1)

/-- The chunk-consuming loop of `LLM._stream`: accumulate deltas, yield the
accumulated content after each non-empty delta, truncate at the first
`</function>` and stop accumulating there, then read up to five more chunks
waiting for a usage chunk.  Returns the yielded partial contents, the final
accumulated content and the final `done_streaming` counter. -/
def streamGo : List StreamChunk → List Char → Nat → List (List Char) × List Char × Nat
  | [], acc, done => ([], acc, done)
  | ch :: rest, acc, done =>
    if 0 < done then
      let done' := done + 1
      if ch.hasUsage || decide (5 < done') then ([], acc, done')
      else streamGo rest acc done'
    else
      let delta := ch.content
      if delta.isEmpty then streamGo rest acc done
      else
        let acc' := acc ++ delta
        match firstOcc funClose acc' with
        | some i =>
          let accT := acc'.take (i + funClose.length)
          let res := streamGo rest accT 1
          (accT :: res.1, res.2)
        | none =>
          let res := streamGo rest acc' 0
          (acc' :: res.1, res.2)

/-- Modelled from the spec: `_truncate_to_first_function` lives in
`esprit/llm/utils.py`, which is not in the provided sources.  Per §4.4
("Truncate the content to the first such block") and scenario 5 (the terminal
content excludes text after the first block), it cuts everything after the
end of the first complete `</function>` marker and leaves content without one
untouched. -/
def truncate_to_first_function (s : List Char) : List Char :=
  match firstOcc funClose s with
  | some i => s.take (i + funClose.length)
  | none => s

/-- Modelled from the spec: `fix_incomplete_tool_call` lives in
`esprit/llm/utils.py`, which is not in the provided sources.  Per §4.4 it
"repairs obvious incompletions (e.g. a dangling `<parameter=` without
closing)", i.e. it appends the missing closing markers to an unterminated
tool-call block and never removes existing content. -/
def fix_incomplete_tool_call (s : List Char) : List Char :=
  if (firstOcc "<function=".data s).isSome ∧ (firstOcc funClose s).isNone then
    s ++ (if (firstOcc "<parameter=".data s).isSome ∧ (firstOcc "</parameter>".data s).isNone
          then "</parameter>".data else []) ++ funClose
  else s

/-- The partial contents yielded by one `LLM._stream` call. -/
def streamPartials (chunks : List StreamChunk) : List (List Char) :=
  (streamGo chunks [] 0).1

/-- The terminal snapshot's content: `fix_incomplete_tool_call(
_truncate_to_first_function(accumulated))`. -/
def streamTerminal (chunks : List StreamChunk) : List Char :=
  fix_incomplete_tool_call (truncate_to_first_function (streamGo chunks [] 0).2.1)

/-- The partial snapshot contents one whole `LLM.generate` call yields
(the retry loop of `llm.py`): an attempt that raises mid-stream after the
listed chunks has already yielded its partial snapshots to the consumer when
the exception reaches the `except` branch (its terminal yield is never
reached), and the loop then re-enters `_stream`, which restarts
`accumulated` from the empty string; the one attempt that completes
contributes its partial snapshots (and then the terminal one). -/
def generatePartials (failed : List (List StreamChunk)) (final : List StreamChunk) :
    List (List Char) :=
  (failed.map streamPartials).flatten ++ streamPartials final

/-- The terminal snapshot's content of a whole `LLM.generate` call: the
terminal yield of the attempt that completes. -/
def generateTerminal (final : List StreamChunk) : List Char :=
  streamTerminal final

/-! ## The 429-rotation step (`LLM._try_rotate_on_rate_limit` and the retry
loop of `LLM.generate`, `esprit/llm/llm.py`)

The error object is modelled by the attributes the code reads: an optional
`status_code`, and an optional `response` with its own `status_code` and the
`retry-after` header.  The header slot is `Option (Option ℚ)`: absent, or
present with the result of `float(ra)` (`none` when a present header does not
parse — Python's `except ValueError` — or is the falsy empty string).
External collaborators (`PROVIDERS_AVAILABLE`, `_is_antigravity`,
`detect_provider`, `litellm._should_retry`, `_try_model_fallback`) enter as
an explicit environment. -/

/-- The `response` attribute of an error. -/
structure ErrResponse where
  status_code : Option Int := none
  retryAfterHeader : Option (Option ℚ) := none

/-- An exception, by the attributes the retry loop reads. -/
structure ErrInfo where
  status_code : Option Int := none
  response : Option ErrResponse := none

/-- `getattr(e, "status_code", None) or getattr(getattr(e, "response", None),
"status_code", None)` — `or` falls through on `None` and on `0`. -/
def effStatus (e : ErrInfo) : Option Int :=
  let respCode := e.response.bind (fun r => r.status_code)
  match e.status_code with
  | some c => if c = 0 then respCode else some c
  | none => respCode

/-- The `Retry-After` parse of `_try_rotate_on_rate_limit`: default `60.0`,
overwritten only when a response carries a truthy, parseable header. -/
def parseRetryAfter (e : ErrInfo) : ℚ :=
  match e.response with
  | none => 60
  | some r =>
    match r.retryAfterHeader with
    | some (some q) => q
    | _ => 60

/-- The pool calls `_try_rotate_on_rate_limit` makes, in order. -/
inductive PoolCall where
  | peek (provider : String)
  | mark (provider email model : String) (retryAfter : ℚ)
  | rot (provider model : String)
deriving DecidableEq, Repr

/-- The dispatcher's environment: module-level availability flag, the
`_is_antigravity()` routing result, the auth client's `detect_provider`
result for the current model, the model name, and the outcomes of the
external `litellm._should_retry` and `_try_model_fallback` calls. -/
structure DispatchEnv where
  providersAvailable : Bool
  isAntigravity : Bool
  detectedProvider : Option String
  modelName : String
  litellmShouldRetry : Int → Bool
  modelFallbackSucceeds : Bool

/-- `LLM._try_rotate_on_rate_limit(e)`: on a 429, peek the current account's
email, mark it rate-limited with the parsed `Retry-After`, rotate, and report
whether rotation produced an account.  Returns the flag, the pool after the
calls, and the trace of pool calls made. -/
def try_rotate_on_rate_limit (env : DispatchEnv) (pool : Pool) (now_ms : Int)
    (e : ErrInfo) : Bool × Pool × List PoolCall :=
  if ¬ env.providersAvailable then (false, pool, [])
  else if effStatus e ≠ some 429 then (false, pool, [])
  else
    let provider := if env.isAntigravity then some "antigravity" else env.detectedProvider
    if ¬ strTruthy provider then (false, pool, [])
    else
      let prov := provider.getD ""
      match (peek_best_account pool none now_ms).1 with
      | none => (false, pool, [PoolCall.peek prov])
      | some current =>
        let bare_model := bareName env.modelName
        let retry_after := parseRetryAfter e
        let marked := (mark_rate_limited pool current.email bare_model retry_after now_ms).1
        let rotated := rotate marked (some bare_model) now_ms
        ((rotated.1).isSome, rotated.2.1,
         [PoolCall.peek prov,
          PoolCall.mark prov current.email bare_model retry_after,
          PoolCall.rot prov bare_model])

/-- The outcome of one pass through `LLM.generate`'s `except` branch. -/
inductive GenOutcome where
  | retryNoIncrement
  | fallbackRestart
  | raised
  | backoff (wait : ℚ)
deriving DecidableEq, Repr

/-- `self._should_retry(e)`: `code is None or litellm._should_retry(code)`. -/
def shouldRetry (env : DispatchEnv) (e : ErrInfo) : Bool :=
  match effStatus e with
  | none => true
  | some c => env.litellmShouldRetry c

/-- One pass through the `except` branch of `LLM.generate`'s retry loop:
rotation first (retry without incrementing), then the give-up test with the
Antigravity model-fallback escape, then the capped exponential backoff.
Returns the outcome, the attempt counter after the pass, the pool after the
pass, and the pool-call trace. -/
def generateStep (env : DispatchEnv) (pool : Pool) (now_ms : Int) (e : ErrInfo)
    (attempt max_retries : Nat) : GenOutcome × Nat × Pool × List PoolCall :=
  let rot := try_rotate_on_rate_limit env pool now_ms e
  if rot.1 then (GenOutcome.retryNoIncrement, attempt, rot.2.1, rot.2.2)
  else if max_retries ≤ attempt ∨ ¬ shouldRetry env e then
    if env.isAntigravity ∧ env.modelFallbackSucceeds then
      (GenOutcome.fallbackRestart, 0, rot.2.1, rot.2.2)
    else (GenOutcome.raised, attempt, rot.2.1, rot.2.2)
  else (GenOutcome.backoff (min 10 (2 * 2 ^ attempt)), attempt + 1, rot.2.1, rot.2.2)

/-! ## Telemetry fan-out (`TracerBridge`, `esprit/gui/tracer_bridge.py`)

The tracer is the shared-mutable collaborator described in spec §3; the
bridge only reads it, so its state enters as plain data: the fields
`_detect_deltas` and `_get_stats` read.  `get_total_llm_stats()` and
`get_real_tool_count()` are tracer methods (the tracer's module is not among
the provided sources), so their results are fields here.  Timestamps are
rational seconds (the code parses ISO strings with `datetime.fromisoformat`);
the poll's wall clock `datetime.now(UTC)` is the explicit `now` argument.
Python dicts compare order-insensitively; the association lists here are
snapshots of the same tracer dicts, so list equality is dict equality for the
states a poll pair observes. -/

/-- The result of `tracer.get_total_llm_stats()`: the two entries `_get_stats`
reads (`total.output_tokens`, `max_context_tokens`) plus the rest of the
dict, opaque but part of the hashed snapshot. -/
structure LlmStats where
  outputTokens : Int
  maxContextTokens : Int
  rest : String
deriving DecidableEq, Repr

/-- The tracer fields the delta detector reads. -/
structure TracerState where
  agents : List (String × String)
  toolExecutions : List (Nat × String)
  chatMessages : List String
  vulnerabilityReports : List String
  streamingContent : List (String × String)
  latestScreenshots : List (String × Nat)
  llmStats : LlmStats
  realToolCount : Nat
  startTime : Option ℚ
  endTime : Option ℚ
  runStatus : String
  runModel : String
  runName : String
  runId : String
  scanConfig : Option String
  finalScanResult : Option String
deriving DecidableEq, Repr

/-- The dict `_get_stats` returns (and `_detect_deltas` hashes). -/
structure StatsSnap where
  llm : LlmStats
  agentCount : Nat
  toolCount : Nat
  vulnCount : Nat
  startTime : Option ℚ
  endTime : Option ℚ
  status : String
  maxContextTokens : Int
  contextLimit : Int
  tokensPerSecond : ℚ
  runName : String
  runId : String
deriving DecidableEq, Repr

/-- The bridge's delta-tracking counters (`TracerBridge.__init__`).  The
stats hash `""` is `none`; `json.dumps(..., sort_keys=True)` is injective on
the snapshots, so comparing snapshots is comparing hashes. -/
structure BridgeState where
  lastAgentCount : Nat := 0
  lastAgentStatuses : List (String × String) := []
  lastToolCount : Nat := 0
  lastChatCount : Nat := 0
  lastVulnCount : Nat := 0
  lastStreaming : List (String × String) := []
  lastScreenshotIds : List (String × Nat) := []
  lastStatsSnap : Option StatsSnap := none
  lastScanConfig : Option String := none
  sentFinalReport : Bool := false
deriving DecidableEq, Repr

/-- Python `round` (banker's rounding, ties to even). -/
def roundHalfEven (q : ℚ) : Int :=
  let f := ⌊q⌋
  let r := q - (f : ℚ)
  if r < 1 / 2 then f
  else if 1 / 2 < r then f + 1
  else if f % 2 = 0 then f else f + 1

/-- Python `round(q, 1)`. -/
def round1 (q : ℚ) : ℚ := (roundHalfEven (10 * q) : ℚ) / 10

/-- `TracerBridge._get_stats`: the stats snapshot, including the wall-clock
dependent `tokens_per_second` (elapsed runs to `now` while `end_time` is
unset) and the context limit from the pricing catalog. -/
def getStats (data : PricingData) (t : TracerState) (now : ℚ) : StatsSnap :=
  let output := t.llmStats.outputTokens
  let tps : ℚ :=
    match t.startTime with
    | none => 0
    | some start =>
      if 0 < output then
        let endT := match t.endTime with | some e => e | none => now
        let elapsed := endT - start
        if 0 < elapsed then round1 ((output : ℚ) / elapsed) else 0
      else 0
  let contextLimit : Int :=
    if t.runModel ≠ "" then get_context_limit data t.runModel else 128000
  { llm := t.llmStats
    agentCount := t.agents.length
    toolCount := t.realToolCount
    vulnCount := t.vulnerabilityReports.length
    startTime := t.startTime
    endTime := t.endTime
    status := t.runStatus
    maxContextTokens := t.llmStats.maxContextTokens
    contextLimit := contextLimit
    tokensPerSecond := tps
    runName := t.runName
    runId := t.runId }

/-- The delta kinds `_detect_deltas` can emit, in the order of its blocks. -/
inductive DeltaKind where
  | agentsUpdate
  | toolsUpdate
  | chatUpdate
  | vulnerabilityUpdate
  | streamingUpdate
  | screenshotUpdate (agentId : String)
  | statsUpdate
  | scanConfigUpdate
  | scanComplete
deriving DecidableEq, Repr

/-- `TracerBridge._serialize_tools(offset)`: the executions past the offset
(`exec_id <= offset` is skipped when `offset > 0`). -/
def serializeTools (t : TracerState) (offset : Nat) : List (Nat × String) :=
  t.toolExecutions.filter (fun ed => ¬ (ed.1 ≤ offset ∧ 0 < offset))

/-- The agents block of `_detect_deltas`. -/
def agentsBlock (t : TracerState) (b : BridgeState) : List DeltaKind × BridgeState :=
  let count := t.agents.length
  let statuses := t.agents
  if count ≠ b.lastAgentCount ∨ statuses ≠ b.lastAgentStatuses then
    ([DeltaKind.agentsUpdate],
     { b with lastAgentCount := count, lastAgentStatuses := statuses })
  else ([], b)

/-- The tools block of `_detect_deltas`. -/
def toolsBlock (t : TracerState) (b : BridgeState) : List DeltaKind × BridgeState :=
  let count := t.toolExecutions.length
  if count ≠ b.lastToolCount then
    ((if (serializeTools t b.lastToolCount).isEmpty then [] else [DeltaKind.toolsUpdate]),
     { b with lastToolCount := count })
  else ([], b)

/-- The chat block of `_detect_deltas`. -/
def chatBlock (t : TracerState) (b : BridgeState) : List DeltaKind × BridgeState :=
  let count := t.chatMessages.length
  if count ≠ b.lastChatCount then
    ([DeltaKind.chatUpdate], { b with lastChatCount := count })
  else ([], b)

/-- The vulnerabilities block of `_detect_deltas`. -/
def vulnBlock (t : TracerState) (b : BridgeState) : List DeltaKind × BridgeState :=
  let count := t.vulnerabilityReports.length
  if count ≠ b.lastVulnCount then
    ([DeltaKind.vulnerabilityUpdate], { b with lastVulnCount := count })
  else ([], b)

/-- The streaming-content block of `_detect_deltas`. -/
def streamingBlock (t : TracerState) (b : BridgeState) : List DeltaKind × BridgeState :=
  if t.streamingContent ≠ b.lastStreaming then
    ([DeltaKind.streamingUpdate], { b with lastStreaming := t.streamingContent })
  else ([], b)

/-- The screenshots block of `_detect_deltas`: one update per changed key. -/
def screenshotBlock (t : TracerState) (b : BridgeState) : List DeltaKind × BridgeState :=
  if t.latestScreenshots ≠ b.lastScreenshotIds then
    (t.latestScreenshots.filterMap (fun ae =>
       if (b.lastScreenshotIds.find? (fun kv => kv.1 == ae.1)).map (fun kv => kv.2) ≠ some ae.2
       then some (DeltaKind.screenshotUpdate ae.1) else none),
     { b with lastScreenshotIds := t.latestScreenshots })
  else ([], b)

/-- The stats block of `_detect_deltas`. -/
def statsBlock (data : PricingData) (t : TracerState) (now : ℚ) (b : BridgeState) :
    List DeltaKind × BridgeState :=
  let snap := getStats data t now
  if some snap ≠ b.lastStatsSnap then
    ([DeltaKind.statsUpdate], { b with lastStatsSnap := some snap })
  else ([], b)

/-- The scan-config block of `_detect_deltas` (`if t.scan_config and
t.scan_config != self._last_scan_config`). -/
def scanConfigBlock (t : TracerState) (b : BridgeState) : List DeltaKind × BridgeState :=
  match t.scanConfig with
  | some sc =>
    if some sc ≠ b.lastScanConfig then
      ([DeltaKind.scanConfigUpdate], { b with lastScanConfig := some sc })
    else ([], b)
  | none => ([], b)

/-- The final-report block of `_detect_deltas` (latches `sent`). -/
def finalReportBlock (t : TracerState) (b : BridgeState) : List DeltaKind × BridgeState :=
  match t.finalScanResult with
  | some _ =>
    if ¬ b.sentFinalReport then
      ([DeltaKind.scanComplete], { b with sentFinalReport := true })
    else ([], b)
  | none => ([], b)

/-- `TracerBridge._detect_deltas`, one poll: the nine blocks in source
order, threading the bridge state and concatenating the emitted deltas. -/
def detectDeltas (data : PricingData) (t : TracerState) (now : ℚ) (b : BridgeState) :
    List DeltaKind × BridgeState :=
  let r1 := agentsBlock t b
  let r2 := toolsBlock t r1.2
  let r3 := chatBlock t r2.2
  let r4 := vulnBlock t r3.2
  let r5 := streamingBlock t r4.2
  let r6 := screenshotBlock t r5.2
  let r7 := statsBlock data t now r6.2
  let r8 := scanConfigBlock t r7.2
  let r9 := finalReportBlock t r8.2
  (r1.1 ++ r2.1 ++ r3.1 ++ r4.1 ++ r5.1 ++ r6.1 ++ r7.1 ++ r8.1 ++ r9.1, r9.2)

/-- The broadcast decision of `_poll_loop`: a `delta_batch` frame goes out
exactly when the detector returned a non-empty list. -/
def broadcastsFrame (deltas : List DeltaKind) : Bool := !deltas.isEmpty

/-! ## Claims about the pricing catalog (C1, C2, C9) -/

/-- One tiered term of the source agrees with the spec's reading, for
non-negative token counts and a non-negative "above" rate. -/
theorem tiered_cost_eq_spec (n : Int) (base above : ℚ) (hn : 0 ≤ n) (ha : 0 ≤ above) :
    tiered_cost n base above = spec_tiered_term n base above := by
  unfold tiered_cost spec_tiered_term
  rcases lt_or_eq_of_le hn with h0 | h0
  · have hn' : ¬ n ≤ 0 := not_le.mpr h0
    simp only [hn', if_false]
    by_cases ht : TIERED_THRESHOLD < n
    · by_cases hab : 0 < above
      · have hne : above ≠ 0 := ne_of_gt hab
        have hmin : min n TIERED_THRESHOLD = TIERED_THRESHOLD :=
          min_eq_right (le_of_lt ht)
        simp [ht, hab, hne, hmin]
      · have hz : above = 0 := le_antisymm (not_lt.mp hab) ha
        simp [ht, hab, hz]
    · simp [ht]
  · subst h0
    norm_num [TIERED_THRESHOLD]

/-- C1: for every pricing entry with non-negative tiered "above" rates and
all non-negative token counts with `cached ≤ input`, `calculate_cost` (hence
`get_cost` on a resolved model) is the spec's cache-math formula: the regular
input rate on `input − cached`, plus the output and cache-read terms, each
term tiered at the 200 000-token threshold and untier­ed when its "above"
rate is zero. -/
theorem c1_cache_math (p : ModelPricing) (input output cached : Int)
    (hc : 0 ≤ cached) (hci : cached ≤ input) (ho : 0 ≤ output)
    (hia : 0 ≤ p.input_cost_above) (hoa : 0 ≤ p.output_cost_above)
    (hca : 0 ≤ p.cache_read_cost_above) :
    calculate_cost p input output cached = spec_cache_math p input output cached := by
  simp only [calculate_cost, spec_cache_math]
  have h1 : max 0 (input - cached) = input - cached := max_eq_right (by omega)
  rw [h1, tiered_cost_eq_spec _ _ _ (by omega) hia,
      tiered_cost_eq_spec _ _ _ ho hoa, tiered_cost_eq_spec _ _ _ hc hca]

/-- A tiered pricing entry exercising both tiers of the cache-math claim. -/
def tieredPricingExample : ModelPricing :=
  { input_cost := 2, input_cost_above := 3, output_cost := 5,
    cache_read_cost := 7, cache_read_cost_above := 1 }

theorem c1_cache_math_witness :
    ((0 : Int) ≤ 40000 ∧ (40000 : Int) ≤ 250000 ∧ (0 : Int) ≤ 10) ∧
    calculate_cost tieredPricingExample 250000 10 40000
      = spec_cache_math tieredPricingExample 250000 10 40000 :=
  ⟨⟨by norm_num, by norm_num, by norm_num⟩,
   c1_cache_math tieredPricingExample 250000 10 40000 (by norm_num) (by norm_num)
     (by norm_num) (by norm_num [tieredPricingExample])
     (by norm_num [tieredPricingExample]) (by norm_num [tieredPricingExample])⟩

/-- The pricing entry of the spec's cache-pricing scenario:
`in = 5e-6`, `out = 15e-6`, `cache_read = 5e-7`, no tiered rates. -/
def cacheScenarioPricing : ModelPricing :=
  { input_cost := 5 / 1000000, output_cost := 15 / 1000000,
    cache_read_cost := 5 / 10000000 }

/-- The pricing table for the cache-pricing scenario. -/
def cacheScenarioData : PricingData := [("model-x", cacheScenarioPricing)]

/-- The concrete value of the cache-pricing scenario (shared by the C2
counterexample and the amended claim). -/
theorem c2_scenario_value :
    get_cost cacheScenarioData "model-x" 1000 200 400 = 62 / 10000 := by
  have hres : resolve_model cacheScenarioData "model-x" = some cacheScenarioPricing := rfl
  unfold get_cost
  rw [hres]
  norm_num [calculate_cost, tiered_cost, cacheScenarioPricing, TIERED_THRESHOLD]

/-- C2 counterexample: with `input=1000`, `output=200`, `cached=400` and the
scenario's rates, `get_cost` does NOT return `0.00320` — the spec's expected
total drops the output term `200·15e-6`. -/
theorem c2_counterexample :
    get_cost cacheScenarioData "model-x" 1000 200 400 ≠ 32 / 10000 := by
  rw [c2_scenario_value]; norm_num

/-- C2 amended: with those rates and token counts, `get_cost` returns exactly
`0.00620` USD (`600·5e-6 + 200·15e-6 + 400·5e-7`). -/
theorem c2_amended :
    get_cost cacheScenarioData "model-x" 1000 200 400 = 62 / 10000 :=
  c2_scenario_value

/-- C9: whenever no lookup step of `_resolve_model` resolves the model name,
`get_cost` is exactly `0.0` for every token count — usage against unknown
models contributes zero cost. -/
theorem c9_unknown_model_zero_cost (data : PricingData) (model : String)
    (input output cached : Int) (h : resolve_model data model = none) :
    get_cost data model input output cached = 0 := by
  unfold get_cost
  rw [h]

/-- A one-entry pricing table on which `"mistral-large"` resolves through no
step (exact, bare, prefixed, alias, fuzzy). -/
def unknownModelData : PricingData := [("gpt-5", { input_cost := 1 })]

theorem c9_unknown_model_zero_cost_witness :
    resolve_model unknownModelData "mistral-large" = none ∧
    get_cost unknownModelData "mistral-large" 123456 789 12 = 0 :=
  ⟨rfl, c9_unknown_model_zero_cost unknownModelData "mistral-large" 123456 789 12 rfl⟩

/-! ## Claims about the account pool (C10, C5, C6, C7) -/

/-- `updateFirst` is the identity when no element matches. -/
theorem updateFirst_no_match {α : Type} (p : α → Bool) (f : α → α) :
    ∀ l : List α, (∀ x ∈ l, p x = false) → updateFirst p f l = l := by
  intro l
  induction l with
  | nil => intro _; rfl
  | cons x xs ih =>
    intro h
    unfold updateFirst
    rw [h x (List.mem_cons_self x xs)]
    simp only [Bool.false_eq_true, if_false]
    rw [ih (fun y hy => h y (List.mem_cons_of_mem x hy))]

/-- C10: `mark_rate_limited` with an email that matches no stored account
leaves every account entry unchanged — the pool after the call is the pool
before it — while still performing its one (content-identical) file write. -/
theorem c10_mark_unmatched_email_noop (pool : Pool) (email model : String)
    (reset_seconds : ℚ) (now_ms : Int)
    (h : ∀ a ∈ pool.accounts, a.email ≠ email) :
    mark_rate_limited pool email model reset_seconds now_ms = (pool, 1) := by
  have hall : ∀ a ∈ pool.accounts, (fun (x : AccountEntry) => x.email == email) a = false := by
    intro a ha
    simpa using h a ha
  simp only [mark_rate_limited]
  rw [updateFirst_no_match _ _ _ hall]

theorem c10_mark_unmatched_email_noop_witness :
    (∀ a ∈ (Pool.mk [{ email := "a@x" }, { email := "b@y" }] 0 "sticky").accounts,
       a.email ≠ "c@z") ∧
    mark_rate_limited (Pool.mk [{ email := "a@x" }, { email := "b@y" }] 0 "sticky")
      "c@z" "gpt-5" 30 1000
      = (Pool.mk [{ email := "a@x" }, { email := "b@y" }] 0 "sticky", 1) :=
  ⟨by decide,
   c10_mark_unmatched_email_noop
     (Pool.mk [{ email := "a@x" }, { email := "b@y" }] 0 "sticky")
     "c@z" "gpt-5" 30 1000 (by decide)⟩

/-- The per-call cooldown observations of a sequence of `mark_rate_limited`
calls: after each call, `cooling_until − now` for the (first) account with
the given email. -/
def poolCooldownSeq (email model : String) (reset_seconds : ℚ) :
    Pool → List Int → List Int
  | _, [] => []
  | pool, t :: ts =>
    let pool' := (mark_rate_limited pool email model reset_seconds t).1
    (match pool'.accounts.find? (fun x => x.email == email) with
     | some a => match a.cooling_until with | some c => c - t | none => 0
     | none => 0) :: poolCooldownSeq email model reset_seconds pool' ts

/-- The same observations, tracked on the single marked account. -/
def markSeqCooldowns (model : String) (reset_ms : Int) :
    AccountEntry → List Int → List Int
  | _, [] => []
  | a, t :: ts =>
    let a' := mark429 t model reset_ms a
    (match a'.cooling_until with | some c => c - t | none => 0)
      :: markSeqCooldowns model reset_ms a' ts

/-- `find?` through `updateFirst` with a predicate the update preserves. -/
theorem find?_updateFirst {α : Type} (p : α → Bool) (f : α → α)
    (hp : ∀ x, p (f x) = p x) :
    ∀ l : List α, (updateFirst p f l).find? p = (l.find? p).map f := by
  intro l
  induction l with
  | nil => rfl
  | cons x xs ih =>
    unfold updateFirst
    by_cases h : p x
    · rw [if_pos h, List.find?_cons_of_pos _ ((hp x).trans h),
          List.find?_cons_of_pos _ h, Option.map_some']
    · rw [if_neg (by simp [h]), List.find?_cons_of_neg _ (by simp [h]),
          List.find?_cons_of_neg _ (by simp [h]), ih]

/-- `mark429` never changes the email. -/
theorem mark429_email (t : Int) (m : String) (r : Int) (a : AccountEntry) :
    (mark429 t m r a).email = a.email := rfl

/-- The pool-level cooldown observations reduce to the account-level ones for
the (first) account carrying the marked email. -/
theorem poolCooldownSeq_eq_mark (email model : String) (reset : ℚ) :
    ∀ (ts : List Int) (pool : Pool) (a : AccountEntry),
      pool.accounts.find? (fun x => x.email == email) = some a →
      poolCooldownSeq email model reset pool ts
        = markSeqCooldowns model (pyInt (reset * 1000)) a ts := by
  intro ts
  induction ts with
  | nil => intro pool a _; rfl
  | cons t ts ih =>
    intro pool a h
    have hfind : ((mark_rate_limited pool email model reset t).1).accounts.find?
        (fun x => x.email == email)
        = some (mark429 t model (pyInt (reset * 1000)) a) := by
      simp only [mark_rate_limited]
      rw [find?_updateFirst (fun x => x.email == email)
            (mark429 t model (pyInt (reset * 1000))) (fun x => rfl) pool.accounts,
          h, Option.map_some']
    unfold poolCooldownSeq markSeqCooldowns
    dsimp only
    rw [hfind, ih _ _ hfind]

/-- The `consecutive_429s` counter is at least 1 after any `mark429`. -/
theorem mark429_consec_pos (t : Int) (m : String) (r : Int) (a : AccountEntry) :
    1 ≤ (mark429 t m r a).consecutive_429s := by
  unfold mark429
  cases a.last_429_at with
  | none => simp
  | some t0 => simp only; split_ifs <;> omega

/-- `mark429`'s bookkeeping fields, unfolded. -/
theorem mark429_fields (t : Int) (m : String) (r : Int) (a : AccountEntry) :
    (mark429 t m r a).last_429_at = some t ∧
    (mark429 t m r a).cooling_until
      = some (t + BACKOFF_TIERS_S.getD (min ((mark429 t m r a).consecutive_429s - 1) 3) 0 * 1000) := by
  unfold mark429
  constructor
  · rfl
  · simp [BACKOFF_TIERS_S]

/-- Within the reset window, `mark429` increments the counter. -/
theorem mark429_consec_within (t : Int) (m : String) (r : Int) (a : AccountEntry)
    (t0 : Int) (hl : a.last_429_at = some t0) (ht0 : 0 < t0) (hw : t - t0 < 120000) :
    (mark429 t m r a).consecutive_429s = a.consecutive_429s + 1 := by
  unfold mark429
  rw [hl]
  simp only
  rw [if_pos ⟨by omega, by simpa [BACKOFF_RESET_S] using hw⟩]

/-- The account-level cooldown sequence, in closed form: starting from an
account whose last 429 was at `t0 > 0` with counter `k ≥ 1`, a chain of 429s
each within the reset window of the previous yields the tier sequence
`tiers[min (k + j) 3] · 1000`. -/
theorem markSeq_formula (model : String) (r : Int) :
    ∀ (ts : List Int) (a : AccountEntry) (t0 : Int),
      a.last_429_at = some t0 → 0 < t0 →
      List.Chain (fun x y => y - x < 120000 ∧ 0 < y) t0 ts →
      markSeqCooldowns model r a ts
        = (List.range ts.length).map
            (fun j => BACKOFF_TIERS_S.getD (min (a.consecutive_429s + j) 3) 0 * 1000) := by
  intro ts
  induction ts with
  | nil => intros; rfl
  | cons t ts ih =>
    intro a t0 hlast ht0 hchain
    rw [List.chain_cons] at hchain
    obtain ⟨⟨hdiff, htpos⟩, hchain'⟩ := hchain
    have hconsec := mark429_consec_within t model r a t0 hlast ht0 hdiff
    have hfields := mark429_fields t model r a
    have htail := ih (mark429 t model r a) t (by exact hfields.1) htpos hchain'
    unfold markSeqCooldowns
    dsimp only
    rw [hfields.2, htail, hconsec]
    dsimp only
    simp only [List.length_cons, List.range_succ_eq_map, List.map_cons, List.map_map]
    congr 1
    · have h1 : a.consecutive_429s + 1 - 1 = a.consecutive_429s + 0 := by omega
      rw [h1]
      omega
    · apply List.map_congr_left
      intro j _
      have h2 : a.consecutive_429s + 1 + j = a.consecutive_429s + (j + 1) := by omega
      simp only [Function.comp_apply, h2]

/-- Every capped tier value is one of the four tiers (in milliseconds). -/
theorem tier_val (i : Nat) :
    BACKOFF_TIERS_S.getD (min i 3) 0 * 1000
      ∈ ([60000, 300000, 1800000, 7200000] : List Int) := by
  have h : min i 3 = 0 ∨ min i 3 = 1 ∨ min i 3 = 2 ∨ min i 3 = 3 := by omega
  rcases h with h | h | h | h <;> rw [h] <;> decide

/-- Every capped tier value is at most two hours. -/
theorem tier_le (i : Nat) : BACKOFF_TIERS_S.getD (min i 3) 0 * 1000 ≤ 7200000 := by
  have h : min i 3 = 0 ∨ min i 3 = 1 ∨ min i 3 = 2 ∨ min i 3 = 3 := by omega
  rcases h with h | h | h | h <;> rw [h] <;> decide

/-- The capped tier value is monotone in the counter. -/
theorem tier_mono {i j : Nat} (hij : i ≤ j) :
    BACKOFF_TIERS_S.getD (min i 3) 0 * 1000 ≤ BACKOFF_TIERS_S.getD (min j 3) 0 * 1000 := by
  have hle : min i 3 ≤ min j 3 := by omega
  have hi : min i 3 = 0 ∨ min i 3 = 1 ∨ min i 3 = 2 ∨ min i 3 = 3 := by omega
  have hj : min j 3 = 0 ∨ min j 3 = 1 ∨ min j 3 = 2 ∨ min j 3 = 3 := by omega
  rcases hi with hi | hi | hi | hi <;> rcases hj with hj | hj | hj | hj <;>
    rw [hi, hj] <;> first | decide | (exfalso; omega)

/-- A map of a step-monotone function over `range n` is `≤`-chained. -/
theorem chain'_map_range (n : Nat) :
    ∀ (f : Nat → Int), (∀ i, f i ≤ f (i + 1)) →
      List.Chain' (· ≤ ·) ((List.range n).map f) := by
  induction n with
  | zero => intro f _; simp
  | succ m ih =>
    intro f hf
    rw [List.range_succ_eq_map, List.map_cons, List.map_map]
    apply List.chain'_cons'.mpr
    refine ⟨?_, ?_⟩
    · intro y hy
      cases m with
      | zero => simp at hy
      | succ m' =>
        rw [List.range_succ_eq_map, List.map_cons, List.head?_cons] at hy
        simp only [Option.mem_def, Option.some.injEq] at hy
        subst hy
        exact hf 0
    · exact ih (f ∘ Nat.succ) (fun i => hf (i + 1))

/-- C5: for a sequence of `mark_rate_limited` calls on the same account in
which each 429 falls within the 120-second reset window of the previous one,
the observed cooldown `cooling_until − now` is non-decreasing, takes only the
tier values 60, 300, 1800, 7200 seconds, never exceeds 7200 seconds, and —
when the account starts with no recorded 429 — steps through the tiers in
order (`tiers[min j 3]` at the `j`-th call). -/
theorem c5_backoff_monotone (pool : Pool) (email model : String) (reset : ℚ)
    (a : AccountEntry) (t : Int) (ts : List Int)
    (hfind : pool.accounts.find? (fun x => x.email == email) = some a)
    (ht : 0 < t)
    (hchain : List.Chain (fun x y => y - x < 120000 ∧ 0 < y) t ts) :
    List.Chain' (· ≤ ·) (poolCooldownSeq email model reset pool (t :: ts)) ∧
    (∀ c ∈ poolCooldownSeq email model reset pool (t :: ts),
        c ∈ ([60000, 300000, 1800000, 7200000] : List Int)) ∧
    (∀ c ∈ poolCooldownSeq email model reset pool (t :: ts), c ≤ 7200000) ∧
    (a.last_429_at = none →
      poolCooldownSeq email model reset pool (t :: ts)
        = (List.range (ts.length + 1)).map
            (fun j => BACKOFF_TIERS_S.getD (min j 3) 0 * 1000)) := by
  have hred := poolCooldownSeq_eq_mark email model reset (t :: ts) pool a hfind
  have hfields := mark429_fields t model (pyInt (reset * 1000)) a
  have hk1 : 1 ≤ (mark429 t model (pyInt (reset * 1000)) a).consecutive_429s :=
    mark429_consec_pos t model (pyInt (reset * 1000)) a
  have htail := markSeq_formula model (pyInt (reset * 1000)) ts
    (mark429 t model (pyInt (reset * 1000)) a) t hfields.1 ht hchain
  have hclosed : markSeqCooldowns model (pyInt (reset * 1000)) a (t :: ts)
      = (List.range (ts.length + 1)).map
          (fun j => BACKOFF_TIERS_S.getD
            (min ((mark429 t model (pyInt (reset * 1000)) a).consecutive_429s - 1 + j) 3)
            0 * 1000) := by
    unfold markSeqCooldowns
    dsimp only
    rw [hfields.2, htail]
    dsimp only
    simp only [List.range_succ_eq_map, List.map_cons, List.map_map]
    congr 1
    · have h1 : (mark429 t model (pyInt (reset * 1000)) a).consecutive_429s - 1 + 0
          = (mark429 t model (pyInt (reset * 1000)) a).consecutive_429s - 1 := by omega
      rw [h1]
      omega
    · apply List.map_congr_left
      intro j _
      have h2 : (mark429 t model (pyInt (reset * 1000)) a).consecutive_429s + j
          = (mark429 t model (pyInt (reset * 1000)) a).consecutive_429s - 1 + (j + 1) := by
        omega
      simp only [Function.comp_apply]
      rw [h2]
  rw [hred, hclosed]
  refine ⟨?_, ?_, ?_, ?_⟩
  · exact chain'_map_range (ts.length + 1) _ (fun i => tier_mono (by omega))
  · intro c hc
    obtain ⟨j, _, hj⟩ := List.mem_map.mp hc
    exact hj ▸ tier_val _
  · intro c hc
    obtain ⟨j, _, hj⟩ := List.mem_map.mp hc
    exact hj ▸ tier_le _
  · intro hnone
    have hc1 : (mark429 t model (pyInt (reset * 1000)) a).consecutive_429s = 1 := by
      unfold mark429
      rw [hnone]
    apply List.map_congr_left
    intro j _
    rw [hc1]
    norm_num

theorem c5_backoff_monotone_witness :
    ((Pool.mk [{ email := "a@x" }] 0 "sticky").accounts.find?
        (fun x => x.email == "a@x") = some { email := "a@x" } ∧
      (0 : Int) < 100 ∧
      List.Chain (fun x y : Int => y - x < 120000 ∧ 0 < y) 100 [1000, 50000, 100000, 200000]) ∧
    (List.Chain' (· ≤ ·)
        (poolCooldownSeq "a@x" "gpt-5" 30 (Pool.mk [{ email := "a@x" }] 0 "sticky")
          (100 :: [1000, 50000, 100000, 200000])) ∧
      (∀ c ∈ poolCooldownSeq "a@x" "gpt-5" 30 (Pool.mk [{ email := "a@x" }] 0 "sticky")
          (100 :: [1000, 50000, 100000, 200000]),
          c ∈ ([60000, 300000, 1800000, 7200000] : List Int)) ∧
      (∀ c ∈ poolCooldownSeq "a@x" "gpt-5" 30 (Pool.mk [{ email := "a@x" }] 0 "sticky")
          (100 :: [1000, 50000, 100000, 200000]), c ≤ 7200000) ∧
      (({ email := "a@x" } : AccountEntry).last_429_at = none →
        poolCooldownSeq "a@x" "gpt-5" 30 (Pool.mk [{ email := "a@x" }] 0 "sticky")
            (100 :: [1000, 50000, 100000, 200000])
          = (List.range ([1000, 50000, 100000, (200000 : Int)].length + 1)).map
              (fun j => BACKOFF_TIERS_S.getD (min j 3) 0 * 1000))) :=
  ⟨⟨by decide, by norm_num, by norm_num [List.chain_cons]⟩,
   c5_backoff_monotone (Pool.mk [{ email := "a@x" }] 0 "sticky") "a@x" "gpt-5" 30
     { email := "a@x" } 100 [1000, 50000, 100000, 200000]
     (by decide) (by norm_num) (by norm_num [List.chain_cons])⟩

/-- Soundness of `rotate`'s offset scan: a hit is a valid index different
from the current one, holding a viable account. -/
theorem rotateGo_sound (accounts : List AccountEntry) (current : Nat)
    (model : Option String) (now_ms : Int) :
    ∀ (offsets : List Nat) (idx : Nat),
      (∀ k ∈ offsets, 1 ≤ k ∧ k < accounts.length) →
      rotateGo accounts current model now_ms offsets = some idx →
      idx < accounts.length ∧
      (current < accounts.length → idx ≠ current) ∧
      ∃ a, accounts[idx]? = some a ∧ rotateViable a model now_ms = true := by
  intro offsets
  induction offsets with
  | nil =>
    intro idx _ h
    simp [rotateGo] at h
  | cons k ks ih =>
    intro idx hk h
    unfold rotateGo at h
    dsimp only at h
    rcases hget : accounts[(current + k) % accounts.length]? with _ | a
    · rw [hget] at h
      dsimp only at h
      exact ih idx (fun k' hk' => hk k' (List.mem_cons_of_mem _ hk')) h
    · rw [hget] at h
      dsimp only at h
      by_cases hv : rotateViable a model now_ms
      · rw [if_pos hv] at h
        obtain rfl := (Option.some.inj h).symm
        obtain ⟨hk1, hklen⟩ := hk k (List.mem_cons_self k ks)
        have hpos : 0 < accounts.length := by omega
        refine ⟨Nat.mod_lt _ hpos, ?_, a, hget, hv⟩
        intro hcur heq
        have hmod : current % accounts.length = current := Nat.mod_eq_of_lt hcur
        have hmodeq : current ≡ current + k [MOD accounts.length] := by
          unfold Nat.ModEq
          rw [heq]
          exact hmod
        have hdvd : accounts.length ∣ current + k - current :=
          (Nat.modEq_iff_dvd' (Nat.le_add_right _ _)).mp hmodeq
        have : accounts.length ∣ k := by simpa using hdvd
        have := Nat.le_of_dvd (by omega) this
        omega
      · rw [if_neg hv] at h
        exact ih idx (fun k' hk' => hk k' (List.mem_cons_of_mem _ hk')) h

/-- `clearExpired` preserves the number of accounts. -/
theorem clearExpired_length (accounts : List AccountEntry) (now_ms : Int) :
    (clearExpired accounts now_ms).length = accounts.length :=
  List.length_map accounts (clearExpiredOne now_ms)

/-- C6: when `active_index` is valid, `rotate` never returns the account at
the current `active_index` — either it returns an enabled, non-cooling
account with no unexpired rate-limit entry for the given model, found at a
different index that `active_index` is advanced to, or it returns `nil`; with
at most one stored account it always returns `nil`. -/
theorem c6_rotate_spec (pool : Pool) (model : Option String) (now_ms : Int)
    (hidx : pool.active_index < pool.accounts.length) :
    (pool.accounts.length ≤ 1 → (rotate pool model now_ms).1 = none) ∧
    (∀ a, (rotate pool model now_ms).1 = some a →
      (rotate pool model now_ms).2.1.active_index ≠ pool.active_index ∧
      (rotate pool model now_ms).2.1.active_index < pool.accounts.length ∧
      a.enabled = true ∧
      (∀ c, a.cooling_until = some c → c = 0 ∨ c ≤ now_ms) ∧
      (∀ m, model = some m → m ≠ "" → alookup a.rate_limits m = none) ∧
      (∃ a0, (clearExpired pool.accounts now_ms)[(rotate pool model now_ms).2.1.active_index]?
          = some a0 ∧ a = { a0 with last_used := some now_ms })) := by
  unfold rotate
  by_cases hlen : pool.accounts.length ≤ 1
  · simp [if_pos hlen]
  · simp only [if_neg hlen]
    constructor
    · intro h
      omega
    · intro a ha
      have hoff : ∀ k ∈ (List.range ((clearExpired pool.accounts now_ms).length - 1)).map
          (fun k => k + 1), 1 ≤ k ∧ k < (clearExpired pool.accounts now_ms).length := by
        intro k hkmem
        obtain ⟨j, hj, rfl⟩ := List.mem_map.mp hkmem
        have := List.mem_range.mp hj
        omega
      rcases hgo : rotateGo (clearExpired pool.accounts now_ms) pool.active_index model now_ms
          ((List.range ((clearExpired pool.accounts now_ms).length - 1)).map
            (fun k => k + 1)) with _ | idx
      · rw [hgo] at ha
        simp at ha
      · obtain ⟨hlt, hne, a0, hget, hviable⟩ :=
          rotateGo_sound (clearExpired pool.accounts now_ms) pool.active_index model now_ms
            _ idx hoff hgo
        rw [hgo] at ha
        dsimp only at ha ⊢
        rw [hget] at ha ⊢
        dsimp only at ha ⊢
        obtain rfl := (Option.some.inj ha).symm
        rw [clearExpired_length] at hlt hne
        have hbool := hviable
        unfold rotateViable at hbool
        rw [Bool.and_eq_true, Bool.and_eq_true] at hbool
        obtain ⟨⟨hen, hcool⟩, hrl⟩ := hbool
        refine ⟨hne hidx, hlt, hen, ?_, ?_, a0, hget, rfl⟩
        · intro c hc
          rw [show ({ a0 with last_used := some now_ms } : AccountEntry).cooling_until
              = a0.cooling_until from rfl] at hc
          rw [hc] at hcool
          simp only [Bool.not_eq_true'] at hcool
          rcases Bool.and_eq_false_iff.mp hcool with h1 | h2
          · left
            simpa using h1
          · right
            have := of_decide_eq_false h2
            omega
        · intro m hm hmne
          rw [hm] at hrl
          have hst : strTruthy (some m) = true := by
            simp [strTruthy, hmne]
          rw [show alookup ({ a0 with last_used := some now_ms } : AccountEntry).rate_limits m
              = alookup a0.rate_limits m from rfl]
          simp only [Bool.not_eq_true'] at hrl
          rw [hst] at hrl
          simpa using hrl

theorem c6_rotate_spec_witness :
    (Pool.mk [{ email := "a@x" }, { email := "b@y" }] 0 "sticky").active_index
      < (Pool.mk [{ email := "a@x" }, { email := "b@y" }] 0 "sticky").accounts.length ∧
    (((Pool.mk [{ email := "a@x" }, { email := "b@y" }] 0 "sticky").accounts.length ≤ 1 →
        (rotate (Pool.mk [{ email := "a@x" }, { email := "b@y" }] 0 "sticky") none 1000).1
          = none) ∧
      (∀ a, (rotate (Pool.mk [{ email := "a@x" }, { email := "b@y" }] 0 "sticky") none 1000).1
          = some a →
        (rotate (Pool.mk [{ email := "a@x" }, { email := "b@y" }] 0 "sticky") none
            1000).2.1.active_index
          ≠ (Pool.mk [{ email := "a@x" }, { email := "b@y" }] 0 "sticky").active_index ∧
        (rotate (Pool.mk [{ email := "a@x" }, { email := "b@y" }] 0 "sticky") none
            1000).2.1.active_index
          < (Pool.mk [{ email := "a@x" }, { email := "b@y" }] 0 "sticky").accounts.length ∧
        a.enabled = true ∧
        (∀ c, a.cooling_until = some c → c = 0 ∨ c ≤ 1000) ∧
        (∀ m, (none : Option String) = some m → m ≠ "" → alookup a.rate_limits m = none) ∧
        (∃ a0, (clearExpired (Pool.mk [{ email := "a@x" }, { email := "b@y" }] 0
              "sticky").accounts 1000)[(rotate (Pool.mk [{ email := "a@x" },
              { email := "b@y" }] 0 "sticky") none 1000).2.1.active_index]?
            = some a0 ∧ a = { a0 with last_used := some 1000 }))) :=
  ⟨by decide,
   c6_rotate_spec (Pool.mk [{ email := "a@x" }, { email := "b@y" }] 0 "sticky") none 1000
     (by decide)⟩

/-- Members of the availability list are positioned entries of the account
list. -/
theorem mem_availableOf {accounts : List AccountEntry} {now_ms : Int}
    {ia : Nat × AccountEntry} (h : ia ∈ availableOf accounts now_ms) :
    accounts[ia.1]? = some ia.2 := by
  unfold availableOf at h
  dsimp only at h
  split at h <;>
    exact List.mem_enum_iff_getElem?.mp (List.mem_of_mem_filter h)

/-- The per-model refinement only narrows the availability list. -/
theorem mem_filterByModel {av : List (Nat × AccountEntry)} {model : Option String}
    {ia : Nat × AccountEntry} (h : ia ∈ filterByModel av model) : ia ∈ av := by
  unfold filterByModel at h
  dsimp only at h
  split_ifs at h
  · exact h
  · exact List.mem_of_mem_filter h
  · exact h

/-- A member of the round-robin partition is a member of the availability
list. -/
theorem mem_rrPartition {av : List (Nat × AccountEntry)} {active : Nat}
    {ia : Nat × AccountEntry}
    (h : ia ∈ av.filter (fun x => ¬ (x.1 ≤ active)) ++ av.filter (fun x => x.1 ≤ active)) :
    ia ∈ av := by
  rcases List.mem_append.mp h with h' | h' <;> exact List.mem_of_mem_filter h'

/-- C7: `peek_best_account` makes exactly the selection `get_best_account`
makes (the duplicated selection code agrees), performs no write and leaves
the pool unchanged; `get_best_account` returns the same account with
`last_used` stamped, persists `active_index` at the chosen account's
position, and performs one write. -/
theorem c7_peek_refines_get (pool : Pool) (model : Option String) (now_ms : Int) :
    (get_best_account pool model now_ms).1
      = ((peek_best_account pool model now_ms).1).map
          (fun a => { a with last_used := some now_ms }) ∧
    (peek_best_account pool model now_ms).2.1 = pool ∧
    (peek_best_account pool model now_ms).2.2 = 0 ∧
    (∀ a, (get_best_account pool model now_ms).1 = some a →
      (get_best_account pool model now_ms).2.2 = 1 ∧
      (get_best_account pool model now_ms).2.1.accounts[
        (get_best_account pool model now_ms).2.1.active_index]? = some a) ∧
    ((get_best_account pool model now_ms).1 = none →
      (get_best_account pool model now_ms).2 = (pool, 0)) := by
  unfold peek_best_account get_best_account
  by_cases hemp : pool.accounts.isEmpty = true
  · simp [hemp]
  · simp only [hemp, if_false]
    by_cases hav : (availableOf (clearExpired pool.accounts now_ms) now_ms).isEmpty = true
    · simp [hav]
    · simp only [hav, if_false]
      have hsetElem : ∀ ia : Nat × AccountEntry,
          ia ∈ filterByModel (availableOf (clearExpired pool.accounts now_ms) now_ms) model →
          ((clearExpired pool.accounts now_ms).set ia.1
              { ia.2 with last_used := some now_ms })[ia.1]?
            = some { ia.2 with last_used := some now_ms } := by
        intro ia hmem
        have hget := mem_availableOf (mem_filterByModel hmem)
        have hlt : ia.1 < (clearExpired pool.accounts now_ms).length := by
          rcases List.getElem?_eq_some.mp hget with ⟨hlt, _⟩
          exact hlt
        exact List.getElem?_set_eq_of_lt _ hlt
      by_cases hstr : (pool.strategy == "round-robin") = true
      · simp only [hstr, if_true]
        rcases hh : ((filterByModel (availableOf (clearExpired pool.accounts now_ms) now_ms)
            model).filter (fun ia => ¬ (ia.1 ≤ pool.active_index))
            ++ (filterByModel (availableOf (clearExpired pool.accounts now_ms) now_ms)
            model).filter (fun ia => ia.1 ≤ pool.active_index)).head? with _ | ia
        · simp [hh]
        · have hmem : ia ∈ filterByModel (availableOf (clearExpired pool.accounts now_ms)
              now_ms) model :=
            mem_rrPartition (List.mem_of_mem_head? (by rw [hh]; exact rfl))
          simp only [hh, Option.map_some']
          refine ⟨rfl, rfl, rfl, ?_, by intro h; simp at h⟩
          intro a ha
          obtain rfl := (Option.some.inj ha).symm
          exact ⟨rfl, hsetElem ia hmem⟩
      · simp only [hstr, if_false]
        rcases hf : (filterByModel (availableOf (clearExpired pool.accounts now_ms) now_ms)
            model).find? (fun ia => ia.1 == pool.active_index) with _ | ia
        · rcases hh : (filterByModel (availableOf (clearExpired pool.accounts now_ms) now_ms)
              model).head? with _ | ia
          · simp [hf, hh]
          · have hmem : ia ∈ filterByModel (availableOf (clearExpired pool.accounts now_ms)
                now_ms) model :=
              List.mem_of_mem_head? (by rw [hh]; exact rfl)
            simp only [hf, hh, Option.map_some']
            refine ⟨rfl, rfl, rfl, ?_, by intro h; simp at h⟩
            intro a ha
            obtain rfl := (Option.some.inj ha).symm
            exact ⟨rfl, hsetElem ia hmem⟩
        · have hmem : ia ∈ filterByModel (availableOf (clearExpired pool.accounts now_ms)
              now_ms) model := List.mem_of_find?_eq_some hf
          simp only [hf, Option.map_some']
          refine ⟨rfl, rfl, rfl, ?_, by intro h; simp at h⟩
          intro a ha
          obtain rfl := (Option.some.inj ha).symm
          exact ⟨rfl, hsetElem ia hmem⟩

/-- A two-account pool exercising the peek/get agreement. -/
def peekGetPool : Pool := Pool.mk [{ email := "a@x" }, { email := "b@y" }] 1 "sticky"

theorem c7_peek_refines_get_witness :
    (get_best_account peekGetPool (some "gpt-5") 5).1
      = ((peek_best_account peekGetPool (some "gpt-5") 5).1).map
          (fun a => { a with last_used := some 5 }) ∧
    (peek_best_account peekGetPool (some "gpt-5") 5).2.1 = peekGetPool ∧
    (peek_best_account peekGetPool (some "gpt-5") 5).2.2 = 0 ∧
    (∀ a, (get_best_account peekGetPool (some "gpt-5") 5).1 = some a →
      (get_best_account peekGetPool (some "gpt-5") 5).2.2 = 1 ∧
      (get_best_account peekGetPool (some "gpt-5") 5).2.1.accounts[
        (get_best_account peekGetPool (some "gpt-5") 5).2.1.active_index]? = some a) ∧
    ((get_best_account peekGetPool (some "gpt-5") 5).1 = none →
      (get_best_account peekGetPool (some "gpt-5") 5).2 = (peekGetPool, 0)) :=
  c7_peek_refines_get peekGetPool (some "gpt-5") 5

/-! ## Claim about the retry loop (C4) -/

/-- C4: when an attempt fails with HTTP 429 (providers available, a provider
resolved, a current account found), the dispatcher peeks the current
account's email, marks it rate-limited with the parsed `Retry-After` —
defaulting to 60 s when the header is absent or unparseable — rotates to the
given (bare) model, and on a successful rotation the loop retries
immediately with the attempt counter unchanged. -/
theorem c4_rotate_on_429 (env : DispatchEnv) (pool : Pool) (now_ms : Int) (e : ErrInfo)
    (attempt max_retries : Nat) (current : AccountEntry)
    (hpa : env.providersAvailable = true)
    (h429 : effStatus e = some 429)
    (hprov : strTruthy (if env.isAntigravity then some "antigravity"
        else env.detectedProvider) = true)
    (hpeek : (peek_best_account pool none now_ms).1 = some current)
    (hrot : ((rotate (mark_rate_limited pool current.email (bareName env.modelName)
        (parseRetryAfter e) now_ms).1 (some (bareName env.modelName)) now_ms).1).isSome
        = true) :
    generateStep env pool now_ms e attempt max_retries
      = (GenOutcome.retryNoIncrement, attempt,
         (rotate (mark_rate_limited pool current.email (bareName env.modelName)
             (parseRetryAfter e) now_ms).1 (some (bareName env.modelName)) now_ms).2.1,
         [PoolCall.peek ((if env.isAntigravity then some "antigravity"
             else env.detectedProvider).getD ""),
          PoolCall.mark ((if env.isAntigravity then some "antigravity"
             else env.detectedProvider).getD "") current.email (bareName env.modelName)
             (parseRetryAfter e),
          PoolCall.rot ((if env.isAntigravity then some "antigravity"
             else env.detectedProvider).getD "") (bareName env.modelName)]) ∧
    (e.response = none → parseRetryAfter e = 60) ∧
    (∀ r, e.response = some r → r.retryAfterHeader = none → parseRetryAfter e = 60) ∧
    (∀ r, e.response = some r → r.retryAfterHeader = some none → parseRetryAfter e = 60) := by
  have htry : try_rotate_on_rate_limit env pool now_ms e
      = (true,
         (rotate (mark_rate_limited pool current.email (bareName env.modelName)
             (parseRetryAfter e) now_ms).1 (some (bareName env.modelName)) now_ms).2.1,
         [PoolCall.peek ((if env.isAntigravity then some "antigravity"
             else env.detectedProvider).getD ""),
          PoolCall.mark ((if env.isAntigravity then some "antigravity"
             else env.detectedProvider).getD "") current.email (bareName env.modelName)
             (parseRetryAfter e),
          PoolCall.rot ((if env.isAntigravity then some "antigravity"
             else env.detectedProvider).getD "") (bareName env.modelName)]) := by
    unfold try_rotate_on_rate_limit
    simp only [hpa, h429, hprov, hpeek, hrot, ne_eq, not_true_eq_false, Bool.false_eq_true,
      if_false]
  refine ⟨?_, ?_, ?_, ?_⟩
  · unfold generateStep
    rw [htry]
    rfl
  · intro h
    simp [parseRetryAfter, h]
  · intro r hr hh
    simp [parseRetryAfter, hr, hh]
  · intro r hr hh
    simp [parseRetryAfter, hr, hh]

/-- The environment of the rotation witness: providers importable, a
non-Antigravity model with a detected provider, retryable statuses
irrelevant. -/
def rotEnv : DispatchEnv :=
  { providersAvailable := true
    isAntigravity := false
    detectedProvider := some "openai"
    modelName := "openai/gpt-5"
    litellmShouldRetry := fun _ => true
    modelFallbackSucceeds := false }

/-- The 429 error of the rotation witness: no response object, so the
`Retry-After` default of 60 s applies. -/
def rotErr : ErrInfo := { status_code := some 429 }

/-- The two-account pool of the rotation witness. -/
def rotPool : Pool := Pool.mk [{ email := "a@x" }, { email := "b@y" }] 0 "sticky"

theorem c4_rotate_on_429_witness :
    (rotEnv.providersAvailable = true ∧
      effStatus rotErr = some 429 ∧
      strTruthy (if rotEnv.isAntigravity then some "antigravity"
        else rotEnv.detectedProvider) = true ∧
      (peek_best_account rotPool none 1000).1 = some { email := "a@x" } ∧
      ((rotate (mark_rate_limited rotPool "a@x" "gpt-5" 60 1000).1
          (some "gpt-5") 1000).1).isSome = true) ∧
    (generateStep rotEnv rotPool 1000 rotErr 2 5
      = (GenOutcome.retryNoIncrement, 2,
         (rotate (mark_rate_limited rotPool "a@x" "gpt-5" 60 1000).1
             (some "gpt-5") 1000).2.1,
         [PoolCall.peek "openai", PoolCall.mark "openai" "a@x" "gpt-5" 60,
          PoolCall.rot "openai" "gpt-5"]) ∧
      (rotErr.response = none → parseRetryAfter rotErr = 60) ∧
      (∀ r, rotErr.response = some r → r.retryAfterHeader = none →
        parseRetryAfter rotErr = 60) ∧
      (∀ r, rotErr.response = some r → r.retryAfterHeader = some none →
        parseRetryAfter rotErr = 60)) :=
  ⟨⟨rfl, rfl, rfl, rfl, rfl⟩,
   c4_rotate_on_429 rotEnv rotPool 1000 rotErr 2 5 { email := "a@x" }
     rfl rfl rfl rfl rfl⟩

/-! ## Claim about the streaming loop (C3) -/

/-- A `firstOcc` hit is an occurrence. -/
theorem firstOcc_occ {pat : List Char} :
    ∀ {s : List Char} {i : Nat}, firstOcc pat s = some i → pat <+: s.drop i := by
  intro s
  induction s with
  | nil =>
    intro i h
    unfold firstOcc at h
    split at h
    · obtain rfl := Option.some.inj h
      simpa [List.isPrefixOf_iff_prefix] using ‹pat.isPrefixOf ([] : List Char) = true›
    · exact absurd h (by simp)
  | cons c t ih =>
    intro i h
    unfold firstOcc at h
    split at h
    · obtain rfl := Option.some.inj h
      simpa [List.isPrefixOf_iff_prefix] using ‹pat.isPrefixOf (c :: t) = true›
    · rcases hrec : firstOcc pat t with _ | j
      · rw [hrec] at h
        exact absurd h (by simp)
      · rw [hrec] at h
        obtain rfl := Option.some.inj h.symm
        exact ih hrec

/-- No `firstOcc` hit means no occurrence anywhere (for a non-empty
pattern). -/
theorem firstOcc_none {pat : List Char} (hpat : pat ≠ []) :
    ∀ {s : List Char}, firstOcc pat s = none → ∀ i, ¬ pat <+: s.drop i := by
  intro s
  induction s with
  | nil =>
    intro _ i hpre
    rw [List.drop_nil] at hpre
    exact hpat (List.prefix_nil.mp hpre)
  | cons c t ih =>
    intro h i hpre
    unfold firstOcc at h
    split at h
    · exact absurd h (by simp)
    · rcases i with _ | i
      · rw [List.drop_zero] at hpre
        exact ‹¬ pat.isPrefixOf (c :: t) = true› (List.isPrefixOf_iff_prefix.mpr hpre)
      · have hnone : firstOcc pat t = none := by
          rcases hrec : firstOcc pat t with _ | j
          · rfl
          · rw [hrec] at h
            exact absurd h (by simp)
        exact ih hnone i (by simpa using hpre)

/-- A `firstOcc` hit is the least occurrence. -/
theorem firstOcc_min {pat : List Char} :
    ∀ {s : List Char} {i : Nat}, firstOcc pat s = some i →
      ∀ j, j < i → ¬ pat <+: s.drop j := by
  intro s
  induction s with
  | nil =>
    intro i h j hj
    unfold firstOcc at h
    split at h
    · obtain rfl := Option.some.inj h
      omega
    · exact absurd h (by simp)
  | cons c t ih =>
    intro i h j hj
    unfold firstOcc at h
    split at h
    · obtain rfl := Option.some.inj h
      omega
    · rcases hrec : firstOcc pat t with _ | j'
      · rw [hrec] at h
        exact absurd h (by simp)
      · rw [hrec] at h
        simp only [Option.map_some', Option.some.injEq] at h
        subst h
        rcases j with _ | k
        · intro hpre
          rw [List.drop_zero] at hpre
          exact ‹¬ pat.isPrefixOf (c :: t) = true› (List.isPrefixOf_iff_prefix.mpr hpre)
        · intro hpre
          exact ih hrec k (by omega) (by simpa using hpre)

/-- An occurrence forces a `firstOcc` hit at or before it. -/
theorem firstOcc_exists {pat : List Char} {s : List Char} {i : Nat}
    (hpre : pat <+: s.drop i) (hpat : pat ≠ []) :
    ∃ j, j ≤ i ∧ firstOcc pat s = some j := by
  rcases h : firstOcc pat s with _ | j
  · exact absurd hpre (firstOcc_none hpat h i)
  · refine ⟨j, ?_, rfl⟩
    by_contra hgt
    push_neg at hgt
    exact firstOcc_min h i hgt hpre

/-- A prefix of `l` short enough to fit is a prefix of `l.take n`. -/
theorem prefix_take_of_le {p l : List Char} {n : Nat} (hp : p <+: l)
    (hn : p.length ≤ n) : p <+: l.take n := by
  have heq : p = (l.take n).take p.length := by
    rw [List.take_take, min_eq_left hn]
    exact List.prefix_iff_eq_take.mp hp
  rw [heq]
  exact List.take_prefix _ _

/-- An occurrence inside `l.take n` is an occurrence inside `l`. -/
theorem occ_of_occ_take {pat l : List Char} {n i : Nat}
    (h : pat <+: (l.take n).drop i) : pat <+: l.drop i := by
  have hdt : (l.take n).drop i = (l.drop i).take (n - i) := List.drop_take ..
  rw [hdt] at h
  exact h.trans (List.take_prefix _ _)

/-- An occurrence found in `a ++ d` when `a` has none must end past `a`. -/
theorem occ_append_past {pat a d : List Char} {i : Nat}
    (hnone : firstOcc pat a = none) (hpat : pat ≠ [])
    (hocc : pat <+: (a ++ d).drop i) : a.length < i + pat.length := by
  by_contra hle
  push_neg at hle
  have hi : i ≤ a.length := by
    have := List.length_pos.mpr hpat
    omega
  have hdrop : (a ++ d).drop i = a.drop i ++ d := List.drop_append_of_le_length hi
  rw [hdrop] at hocc
  have hlen : pat.length ≤ (a.drop i).length := by
    rw [List.length_drop]
    omega
  have heq : pat = (a.drop i ++ d).take pat.length := List.prefix_iff_eq_take.mp hocc
  rw [List.take_append_of_le_length hlen] at heq
  have hpre : pat <+: a.drop i := heq ▸ List.take_prefix _ _
  exact firstOcc_none hpat hnone i hpre

/-- The ending bound of a `firstOcc` hit: the occurrence fits in the list. -/
theorem firstOcc_fits {pat s : List Char} {i : Nat}
    (h : firstOcc pat s = some i) (hpat : pat ≠ []) : i + pat.length ≤ s.length := by
  have hocc := firstOcc_occ h
  have hlen : pat.length ≤ (s.drop i).length := hocc.length_le
  rw [List.length_drop] at hlen
  have hpos := List.length_pos.mpr hpat
  by_contra hgt
  push_neg at hgt
  omega

/-- Truncating at the end of the first occurrence keeps it the first
occurrence. -/
theorem firstOcc_take_self {pat s : List Char} {i : Nat}
    (h : firstOcc pat s = some i) (hpat : pat ≠ []) :
    firstOcc pat (s.take (i + pat.length)) = some i := by
  have hocc := firstOcc_occ h
  have hfits := firstOcc_fits h hpat
  have hocc' : pat <+: (s.take (i + pat.length)).drop i := by
    have hdt : (s.take (i + pat.length)).drop i = (s.drop i).take (i + pat.length - i) :=
      List.drop_take ..
    rw [hdt]
    have : i + pat.length - i = pat.length := by omega
    rw [this]
    have heq : pat = (s.drop i).take pat.length := List.prefix_iff_eq_take.mp hocc
    exact heq ▸ List.prefix_refl _
  obtain ⟨j, hji, hj⟩ := firstOcc_exists hocc' hpat
  rcases Nat.lt_or_ge j i with hlt | hge
  · exact absurd (occ_of_occ_take (firstOcc_occ hj)) (firstOcc_min h j hlt)
  · have : j = i := by omega
    exact this ▸ hj

/-- `accOk acc done`: while streaming (`done = 0`) the accumulated content
has no closing marker; once truncated (`done > 0`) any first occurrence ends
exactly at the end of the content. -/
def accOk (acc : List Char) (done : Nat) : Prop :=
  match done with
  | 0 => firstOcc funClose acc = none
  | _ + 1 => firstOcc funClose acc = none ∨
      ∃ i, firstOcc funClose acc = some i ∧ i + funClose.length = acc.length

/-- The closing marker is non-empty. -/
theorem funClose_ne_nil : funClose ≠ [] := by decide

/-- The streaming-loop invariant: every yield extends the entering content,
yields chain by prefix, every yield is a prefix of the final content, the
entering content is a prefix of the final content, and `accOk` is preserved. -/
theorem streamGo_spec :
    ∀ (chunks : List StreamChunk) (acc : List Char) (done : Nat), accOk acc done →
      (∀ y ∈ (streamGo chunks acc done).1, acc <+: y) ∧
      List.Chain' (· <+: ·) (streamGo chunks acc done).1 ∧
      (∀ y ∈ (streamGo chunks acc done).1, y <+: (streamGo chunks acc done).2.1) ∧
      acc <+: (streamGo chunks acc done).2.1 ∧
      accOk (streamGo chunks acc done).2.1 (streamGo chunks acc done).2.2 := by
  intro chunks
  induction chunks with
  | nil =>
    intro acc done hok
    exact ⟨by simp [streamGo], by simp [streamGo], by simp [streamGo],
      List.prefix_refl _, hok⟩
  | cons ch rest ih =>
    intro acc done hok
    unfold streamGo
    dsimp only
    by_cases hdone : 0 < done
    · rw [if_pos hdone]
      have hok' : accOk acc (done + 1) := by
        rcases done with _ | k
        · omega
        · exact hok
      by_cases hbreak : (ch.hasUsage || decide (5 < done + 1)) = true
      · rw [if_pos hbreak]
        exact ⟨by simp, by simp, by simp, List.prefix_refl _, hok'⟩
      · rw [if_neg hbreak]
        exact ih acc (done + 1) hok'
    · rw [if_neg hdone]
      have hdone0 : done = 0 := by omega
      subst hdone0
      by_cases hemp : ch.content.isEmpty = true
      · rw [if_pos hemp]
        exact ih acc 0 hok
      · rw [if_neg hemp]
        rcases hocc : firstOcc funClose (acc ++ ch.content) with _ | i
        · dsimp only
          obtain ⟨h1, h2, h3, h4, h5⟩ := ih (acc ++ ch.content) 0 hocc
          refine ⟨?_, ?_, ?_, ?_, h5⟩
          · intro y hy
            rcases List.mem_cons.mp hy with rfl | hy'
            · exact List.prefix_append _ _
            · exact (List.prefix_append _ _).trans (h1 y hy')
          · exact List.chain'_cons'.mpr
              ⟨fun y hy => h1 y (List.mem_of_mem_head? hy), h2⟩
          · intro y hy
            rcases List.mem_cons.mp hy with rfl | hy'
            · exact h4
            · exact h3 y hy'
          · exact (List.prefix_append _ _).trans h4
        · dsimp only
          have hnone : firstOcc funClose acc = none := hok
          have hpast : acc.length < i + funClose.length :=
            occ_append_past hnone funClose_ne_nil (firstOcc_occ hocc)
          have haccT : acc <+: (acc ++ ch.content).take (i + funClose.length) :=
            prefix_take_of_le (List.prefix_append _ _) (by omega)
          have hlenT : ((acc ++ ch.content).take (i + funClose.length)).length
              = i + funClose.length := by
            rw [List.length_take, min_eq_left (firstOcc_fits hocc funClose_ne_nil)]
          have hokT : accOk ((acc ++ ch.content).take (i + funClose.length)) 1 :=
            Or.inr ⟨i, firstOcc_take_self hocc funClose_ne_nil, hlenT.symm⟩
          obtain ⟨h1, h2, h3, h4, h5⟩ :=
            ih ((acc ++ ch.content).take (i + funClose.length)) 1 hokT
          refine ⟨?_, ?_, ?_, ?_, h5⟩
          · intro y hy
            rcases List.mem_cons.mp hy with rfl | hy'
            · exact haccT
            · exact haccT.trans (h1 y hy')
          · exact List.chain'_cons'.mpr
              ⟨fun y hy => h1 y (List.mem_of_mem_head? hy), h2⟩
          · intro y hy
            rcases List.mem_cons.mp hy with rfl | hy'
            · exact h4
            · exact h3 y hy'
          · exact haccT.trans h4

/-- The repair step never shortens the content. -/
theorem fix_length_ge (s : List Char) :
    s.length ≤ (fix_incomplete_tool_call s).length := by
  unfold fix_incomplete_tool_call
  split_ifs <;> simp

/-- The failed first attempt of the C3 counterexample: one content chunk
arrives ("AB"), then the stream raises a retryable error. -/
def c3FailedAttempt : List StreamChunk := [{ content := "AB".data }]

/-- The retried, successful attempt of the C3 counterexample: it streams the
single chunk "X". -/
def c3FinalAttempt : List StreamChunk := [{ content := "X".data }]

/-- C3 counterexample: in one `LLM.generate` call whose first attempt fails
mid-stream after yielding the partial "AB" and whose retried attempt streams
"X", the yielded partials are "AB", "X" — "AB" is not a prefix of "X" — and
the terminal content "X" is shorter than the earlier partial "AB", so the
cross-attempt cumulative-stream property fails. -/
theorem c3_generate_counterexample :
    ¬ (List.Chain' (· <+: ·) (generatePartials [c3FailedAttempt] c3FinalAttempt) ∧
       ∀ p ∈ generatePartials [c3FailedAttempt] c3FinalAttempt,
         p.length ≤ (generateTerminal c3FinalAttempt).length) := by
  intro h
  have hmem : ('A' :: 'B' :: []) ∈ generatePartials [c3FailedAttempt] c3FinalAttempt := by
    decide
  have hlen := h.2 _ hmem
  have hterm : (generateTerminal c3FinalAttempt).length = 1 := by decide
  rw [hterm] at hlen
  simp at hlen

/-- C3 amended: within one streaming attempt (a single `LLM._stream` call)
of `LLM.generate`, every partial snapshot's content is a string prefix of
the next snapshot's content, and the terminal snapshot's content is at
least as long as every preceding partial content. -/
theorem c3_cumulative_stream (chunks : List StreamChunk) :
    List.Chain' (· <+: ·) (streamPartials chunks) ∧
    ∀ p ∈ streamPartials chunks, p.length ≤ (streamTerminal chunks).length := by
  obtain ⟨h1, h2, h3, h4, h5⟩ := streamGo_spec chunks [] 0 (by rfl)
  refine ⟨h2, ?_⟩
  intro p hp
  have hlen1 : p.length ≤ (streamGo chunks [] 0).2.1.length := (h3 p hp).length_le
  have htr : truncate_to_first_function (streamGo chunks [] 0).2.1
      = (streamGo chunks [] 0).2.1 := by
    unfold truncate_to_first_function
    rcases hoc : firstOcc funClose (streamGo chunks [] 0).2.1 with _ | i
    · rfl
    · rcases hd : (streamGo chunks [] 0).2.2 with _ | k
      · rw [hd] at h5
        unfold accOk at h5
        rw [h5] at hoc
        exact absurd hoc (by simp)
      · rw [hd] at h5
        unfold accOk at h5
        rcases h5 with h5 | ⟨j, hj, hjlen⟩
        · rw [h5] at hoc
          exact absurd hoc (by simp)
        · rw [hj] at hoc
          obtain rfl := Option.some.inj hoc
          dsimp only
          rw [hjlen]
          exact List.take_length _
  have hfix : (streamGo chunks [] 0).2.1.length ≤ (streamTerminal chunks).length := by
    unfold streamTerminal
    rw [htr]
    exact fix_length_ge _
  exact le_trans hlen1 hfix

/-! ## Claim about the fan-out delta detector (C8) -/

/-- The bridge state any poll leaves behind: every counter matches the
tracer, the stats snapshot is the one just hashed, the scan config is
latched when present, and the final-report flag is latched once a final
report exists. -/
def postBridge (data : PricingData) (t : TracerState) (now : ℚ) (b : BridgeState) :
    BridgeState :=
  { lastAgentCount := t.agents.length
    lastAgentStatuses := t.agents
    lastToolCount := t.toolExecutions.length
    lastChatCount := t.chatMessages.length
    lastVulnCount := t.vulnerabilityReports.length
    lastStreaming := t.streamingContent
    lastScreenshotIds := t.latestScreenshots
    lastStatsSnap := some (getStats data t now)
    lastScanConfig := match t.scanConfig with
      | some sc => some sc
      | none => b.lastScanConfig
    sentFinalReport := b.sentFinalReport || t.finalScanResult.isSome }

theorem agentsBlock_state (t : TracerState) (b : BridgeState) :
    (agentsBlock t b).2 = { b with lastAgentCount := t.agents.length,
                                   lastAgentStatuses := t.agents } := by
  unfold agentsBlock
  dsimp only
  split_ifs with h
  · rfl
  · push_neg at h
    obtain ⟨h1, h2⟩ := h
    rw [h1, h2]

theorem toolsBlock_state (t : TracerState) (b : BridgeState) :
    (toolsBlock t b).2 = { b with lastToolCount := t.toolExecutions.length } := by
  unfold toolsBlock
  dsimp only
  split_ifs with h h2
  · rfl
  · rfl
  · push_neg at h
    rw [h]

theorem chatBlock_state (t : TracerState) (b : BridgeState) :
    (chatBlock t b).2 = { b with lastChatCount := t.chatMessages.length } := by
  unfold chatBlock
  dsimp only
  split_ifs with h
  · rfl
  · push_neg at h
    rw [h]

theorem vulnBlock_state (t : TracerState) (b : BridgeState) :
    (vulnBlock t b).2 = { b with lastVulnCount := t.vulnerabilityReports.length } := by
  unfold vulnBlock
  dsimp only
  split_ifs with h
  · rfl
  · push_neg at h
    rw [h]

theorem streamingBlock_state (t : TracerState) (b : BridgeState) :
    (streamingBlock t b).2 = { b with lastStreaming := t.streamingContent } := by
  unfold streamingBlock
  split_ifs with h
  · rfl
  · push_neg at h
    rw [h]

theorem screenshotBlock_state (t : TracerState) (b : BridgeState) :
    (screenshotBlock t b).2 = { b with lastScreenshotIds := t.latestScreenshots } := by
  unfold screenshotBlock
  split_ifs with h
  · rfl
  · push_neg at h
    rw [h]

theorem statsBlock_state (data : PricingData) (t : TracerState) (now : ℚ)
    (b : BridgeState) :
    (statsBlock data t now b).2 = { b with lastStatsSnap := some (getStats data t now) } := by
  unfold statsBlock
  dsimp only
  split_ifs with h
  · rfl
  · push_neg at h
    rw [h]

theorem scanConfigBlock_state (t : TracerState) (b : BridgeState) :
    (scanConfigBlock t b).2 = { b with lastScanConfig := match t.scanConfig with
        | some sc => some sc
        | none => b.lastScanConfig } := by
  unfold scanConfigBlock
  rcases hsc : t.scanConfig with _ | sc
  · rfl
  · dsimp only
    split_ifs with h
    · rfl
    · push_neg at h
      rw [h]

theorem finalReportBlock_state (t : TracerState) (b : BridgeState) :
    (finalReportBlock t b).2
      = { b with sentFinalReport := b.sentFinalReport || t.finalScanResult.isSome } := by
  unfold finalReportBlock
  rcases hf : t.finalScanResult with _ | x
  · simp
  · dsimp only
    by_cases hs : b.sentFinalReport = true
    · rw [if_neg (not_not_intro hs)]
      have hh : (b.sentFinalReport || (some x).isSome) = b.sentFinalReport := by
        rw [hs]
        rfl
      rw [hh]
    · rw [if_pos hs]
      dsimp only
      rw [Option.isSome_some, Bool.or_true]

/-- One poll leaves the canonical bridge state, whatever it started from. -/
theorem detect_state (data : PricingData) (t : TracerState) (now : ℚ) (b : BridgeState) :
    (detectDeltas data t now b).2 = postBridge data t now b := by
  unfold detectDeltas
  dsimp only
  rw [agentsBlock_state, toolsBlock_state, chatBlock_state, vulnBlock_state,
      streamingBlock_state, screenshotBlock_state, statsBlock_state,
      scanConfigBlock_state, finalReportBlock_state]
  rfl

theorem agentsBlock_stable {t : TracerState} {b : BridgeState}
    (h1 : b.lastAgentCount = t.agents.length) (h2 : b.lastAgentStatuses = t.agents) :
    agentsBlock t b = ([], b) := by
  unfold agentsBlock
  simp [h1, h2]

theorem toolsBlock_stable {t : TracerState} {b : BridgeState}
    (h : b.lastToolCount = t.toolExecutions.length) : toolsBlock t b = ([], b) := by
  unfold toolsBlock
  simp [h]

theorem chatBlock_stable {t : TracerState} {b : BridgeState}
    (h : b.lastChatCount = t.chatMessages.length) : chatBlock t b = ([], b) := by
  unfold chatBlock
  simp [h]

theorem vulnBlock_stable {t : TracerState} {b : BridgeState}
    (h : b.lastVulnCount = t.vulnerabilityReports.length) : vulnBlock t b = ([], b) := by
  unfold vulnBlock
  simp [h]

theorem streamingBlock_stable {t : TracerState} {b : BridgeState}
    (h : b.lastStreaming = t.streamingContent) : streamingBlock t b = ([], b) := by
  unfold streamingBlock
  simp [h]

theorem screenshotBlock_stable {t : TracerState} {b : BridgeState}
    (h : b.lastScreenshotIds = t.latestScreenshots) : screenshotBlock t b = ([], b) := by
  unfold screenshotBlock
  simp [h]

theorem statsBlock_stable {data : PricingData} {t : TracerState} {now : ℚ}
    {b : BridgeState} (h : b.lastStatsSnap = some (getStats data t now)) :
    statsBlock data t now b = ([], b) := by
  unfold statsBlock
  simp [h]

theorem statsBlock_fires {data : PricingData} {t : TracerState} {now : ℚ}
    {b : BridgeState} (h : some (getStats data t now) ≠ b.lastStatsSnap) :
    statsBlock data t now b
      = ([DeltaKind.statsUpdate], { b with lastStatsSnap := some (getStats data t now) }) := by
  unfold statsBlock
  simp [h]

theorem scanConfigBlock_stable {t : TracerState} {b : BridgeState}
    (h : ∀ sc, t.scanConfig = some sc → b.lastScanConfig = some sc) :
    scanConfigBlock t b = ([], b) := by
  unfold scanConfigBlock
  rcases hsc : t.scanConfig with _ | sc
  · rfl
  · simp [h sc hsc]

theorem finalReportBlock_stable {t : TracerState} {b : BridgeState}
    (h : t.finalScanResult.isSome = true → b.sentFinalReport = true) :
    finalReportBlock t b = ([], b) := by
  unfold finalReportBlock
  rcases hf : t.finalScanResult with _ | x
  · rfl
  · simp [h (by rw [hf]; rfl)]

/-- The second of two polls over an unchanged tracer emits exactly a stats
delta when the wall-clock-dependent stats snapshot changed, and nothing
otherwise. -/
theorem second_poll (data : PricingData) (t : TracerState) (n1 n2 : ℚ) (b : BridgeState) :
    (detectDeltas data t n2 (detectDeltas data t n1 b).2).1
      = if getStats data t n2 = getStats data t n1 then []
        else [DeltaKind.statsUpdate] := by
  rw [detect_state]
  have hscan : ∀ sc, t.scanConfig = some sc →
      (postBridge data t n1 b).lastScanConfig = some sc := by
    intro sc hsc
    show (match t.scanConfig with
      | some sc => some sc
      | none => b.lastScanConfig) = some sc
    rw [hsc]
  have hfinal : t.finalScanResult.isSome = true →
      (postBridge data t n1 b).sentFinalReport = true := by
    intro hiso
    show (b.sentFinalReport || t.finalScanResult.isSome) = true
    rw [hiso, Bool.or_true]
  have hA : agentsBlock t (postBridge data t n1 b) = ([], postBridge data t n1 b) :=
    agentsBlock_stable rfl rfl
  have hT : toolsBlock t (postBridge data t n1 b) = ([], postBridge data t n1 b) :=
    toolsBlock_stable rfl
  have hC : chatBlock t (postBridge data t n1 b) = ([], postBridge data t n1 b) :=
    chatBlock_stable rfl
  have hV : vulnBlock t (postBridge data t n1 b) = ([], postBridge data t n1 b) :=
    vulnBlock_stable rfl
  have hS : streamingBlock t (postBridge data t n1 b) = ([], postBridge data t n1 b) :=
    streamingBlock_stable rfl
  have hP : screenshotBlock t (postBridge data t n1 b) = ([], postBridge data t n1 b) :=
    screenshotBlock_stable rfl
  by_cases hst : getStats data t n2 = getStats data t n1
  · rw [if_pos hst]
    have hQ : statsBlock data t n2 (postBridge data t n1 b)
        = ([], postBridge data t n1 b) := statsBlock_stable (by rw [hst]; rfl)
    have hG : scanConfigBlock t (postBridge data t n1 b)
        = ([], postBridge data t n1 b) := scanConfigBlock_stable hscan
    have hF : finalReportBlock t (postBridge data t n1 b)
        = ([], postBridge data t n1 b) := finalReportBlock_stable hfinal
    unfold detectDeltas
    dsimp only
    rw [hA]
    dsimp only
    rw [hT]
    dsimp only
    rw [hC]
    dsimp only
    rw [hV]
    dsimp only
    rw [hS]
    dsimp only
    rw [hP]
    dsimp only
    rw [hQ]
    dsimp only
    rw [hG]
    dsimp only
    rw [hF]
    simp
  · rw [if_neg hst]
    have hQ : statsBlock data t n2 (postBridge data t n1 b)
        = ([DeltaKind.statsUpdate],
           { postBridge data t n1 b with lastStatsSnap := some (getStats data t n2) }) :=
      statsBlock_fires (by intro h; exact hst (Option.some.inj h))
    have hG : scanConfigBlock t
        { postBridge data t n1 b with lastStatsSnap := some (getStats data t n2) }
        = ([], { postBridge data t n1 b with lastStatsSnap := some (getStats data t n2) }) :=
      scanConfigBlock_stable hscan
    have hF : finalReportBlock t
        { postBridge data t n1 b with lastStatsSnap := some (getStats data t n2) }
        = ([], { postBridge data t n1 b with lastStatsSnap := some (getStats data t n2) }) :=
      finalReportBlock_stable hfinal
    unfold detectDeltas
    dsimp only
    rw [hA]
    dsimp only
    rw [hT]
    dsimp only
    rw [hC]
    dsimp only
    rw [hV]
    dsimp only
    rw [hS]
    dsimp only
    rw [hP]
    dsimp only
    rw [hQ]
    dsimp only
    rw [hG]
    dsimp only
    rw [hF]
    simp

/-- A running scan: start time set, no end time, 100 output tokens.  Its
stats snapshot depends on the poll's wall clock through
`tokens_per_second`. -/
def c8Tracer : TracerState :=
  { agents := [("a1", "running")]
    toolExecutions := []
    chatMessages := []
    vulnerabilityReports := []
    streamingContent := []
    latestScreenshots := []
    llmStats := { outputTokens := 100, maxContextTokens := 0, rest := "" }
    realToolCount := 0
    startTime := some 0
    endTime := none
    runStatus := "running"
    runModel := ""
    runName := "r"
    runId := "1"
    scanConfig := none
    finalScanResult := none }

/-- The bridge's initial tracking state (`TracerBridge.__init__`). -/
def c8Bridge0 : BridgeState := {}

/-- C8 counterexample: with the tracer completely unchanged between two
polls at 10 s and 20 s, the second poll still emits a delta — `_get_stats`
reads the wall clock for `tokens_per_second` (10.0 then 5.0), the stats hash
changes, and a `stats_update` goes out. -/
theorem c8_counterexample :
    (detectDeltas [] c8Tracer 20 (detectDeltas [] c8Tracer 10 c8Bridge0).2).1 ≠ [] := by
  have h20 : (getStats [] c8Tracer 20).tokensPerSecond = 5 := by
    simp only [getStats, c8Tracer]
    norm_num [round1, roundHalfEven]
  have h10 : (getStats [] c8Tracer 10).tokensPerSecond = 10 := by
    simp only [getStats, c8Tracer]
    norm_num [round1, roundHalfEven]
  have hne : getStats [] c8Tracer 20 ≠ getStats [] c8Tracer 10 := by
    intro h
    have htps := congrArg StatsSnap.tokensPerSecond h
    rw [h20, h10] at htps
    norm_num at htps
  rw [second_poll, if_neg hne]
  simp

/-- C8 amended: two consecutive polls observing an identical tracer state
emit no deltas from the second poll — provided the wall-clock-dependent
stats snapshot `_get_stats` computes is also unchanged between the polls
(as when `end_time` is set or no output tokens exist); otherwise the second
poll emits a `stats_update`. -/
theorem c8_idempotent_poll (data : PricingData) (t : TracerState) (n1 n2 : ℚ)
    (b : BridgeState) (hst : getStats data t n2 = getStats data t n1) :
    (detectDeltas data t n2 (detectDeltas data t n1 b).2).1 = [] ∧
    broadcastsFrame (detectDeltas data t n2 (detectDeltas data t n1 b).2).1 = false := by
  have h := second_poll data t n1 n2 b
  rw [if_pos hst] at h
  exact ⟨h, by rw [h]; rfl⟩

/-- An idle tracer: no start time, so the stats snapshot ignores the
clock. -/
def c8QuietTracer : TracerState :=
  { agents := []
    toolExecutions := []
    chatMessages := []
    vulnerabilityReports := []
    streamingContent := []
    latestScreenshots := []
    llmStats := { outputTokens := 0, maxContextTokens := 0, rest := "" }
    realToolCount := 0
    startTime := none
    endTime := none
    runStatus := "running"
    runModel := ""
    runName := "r"
    runId := "1"
    scanConfig := none
    finalScanResult := none }

theorem c8_idempotent_poll_witness :
    getStats [] c8QuietTracer 20 = getStats [] c8QuietTracer 10 ∧
    ((detectDeltas [] c8QuietTracer 20 (detectDeltas [] c8QuietTracer 10 c8Bridge0).2).1 = [] ∧
      broadcastsFrame
        (detectDeltas [] c8QuietTracer 20 (detectDeltas [] c8QuietTracer 10 c8Bridge0).2).1
        = false) :=
  ⟨rfl, c8_idempotent_poll [] c8QuietTracer 10 20 c8Bridge0 rfl⟩

end Esprit
